import Mathlib

/-!
Shallow embedding of the AddressExtractor reconciliation engine
(`backend_db.py` and `gp_fuzzy_search.py`) and proofs about it.

Python strings are modelled as `String` / `List Char` (ASCII-faithful:
`lower`/`upper`/`strip` agree with Python on ASCII input, which covers every
input the claims mention).  Machine behaviour that can raise a Python
exception is modelled with `Except Unit`.
-/

namespace AddressExtractor

/-- Python `\s` whitespace characters (ASCII range). -/
def pyIsSpace (c : Char) : Bool :=
  c = ' ' || c = '\t' || c = '\n' || c = '\x0d' || c = '\x0b' || c = '\x0c'

/-- Python `str.strip()` on a character list. -/
def pyStripL (l : List Char) : List Char :=
  ((l.dropWhile pyIsSpace).reverse.dropWhile pyIsSpace).reverse

/-- Python `str.strip()`. -/
def pyStrip (s : String) : String := String.mk (pyStripL s.data)

/-- Python `str.lower()` (ASCII). -/
def pyLower (s : String) : String := String.mk (s.data.map Char.toLower)

/-- Python `str.upper()` (ASCII). -/
def pyUpper (s : String) : String := String.mk (s.data.map Char.toUpper)

/-- Does `t` start with the pattern `p`? -/
def startsWith : List Char → List Char → Bool
  | [], _ => true
  | _ :: _, [] => false
  | x :: xs, y :: ys => x = y && startsWith xs ys

/-- Python `p in t` on strings: contiguous substring containment. -/
def containsSub (p : List Char) : List Char → Bool
  | [] => p.isEmpty
  | c :: tt => startsWith p (c :: tt) || containsSub p tt

/-- Python `str.split()` helper: accumulate the current word (reversed). -/
def wordsAux (cur : List Char) : List Char → List (List Char)
  | [] => if cur.isEmpty then [] else [cur.reverse]
  | c :: t =>
    if pyIsSpace c then
      if cur.isEmpty then wordsAux [] t else cur.reverse :: wordsAux [] t
    else wordsAux (c :: cur) t

/-- Python `str.split()` (split on whitespace runs, no empty words). -/
def wordsOf (l : List Char) : List (List Char) := wordsAux [] l

/-! ## `normalize_name` (backend_db.py lines 36-59) -/

/-- The alternatives of `TITLE_PATTERNS`, in regex alternation order. -/
def titleList : List String :=
  ["mr", "mrs", "ms", "miss", "dr", "prof", "professor", "sir", "dame",
   "lord", "lady", "rev", "reverend"]

/-- Python `\w` word characters (ASCII). -/
def isWordChar (c : Char) : Bool :=
  ('a' ≤ c && c ≤ 'z') || ('A' ≤ c && c ≤ 'Z') || ('0' ≤ c && c ≤ '9') || c = '_'

/-- Does title `t` match at the start of `cs` with a `\b` boundary after it? -/
def titleMatches (t : List Char) (cs : List Char) : Bool :=
  startsWith t cs &&
    (match cs.drop t.length with
     | [] => true
     | c :: _ => !isWordChar c)

/-- Consume `\.?\s*` after a matched title. -/
def dropDotSpaces (cs : List Char) : List Char :=
  match cs with
  | '.' :: rest => rest.dropWhile pyIsSpace
  | _ => cs.dropWhile pyIsSpace

/-- `TITLE_PATTERNS.sub("", n)`: strip one leading honorific title.
The regex is anchored at `^` without MULTILINE, so at most one substitution
happens; alternation is tried left to right with the `\b` check. -/
def stripTitle (cs : List Char) : List Char :=
  match titleList.find? (fun t => titleMatches t.data cs) with
  | some t => dropDotSpaces (cs.drop t.length)
  | none => cs

/-- Keep `[a-z\s\-']`, i.e. drop what `re.sub(r"[^a-z\s\-']", "", n)` drops. -/
def keepNameChar (c : Char) : Bool :=
  ('a' ≤ c && c ≤ 'z') || pyIsSpace c || c = '-' || c = '\''

/-- `re.sub(r"\s+", " ", n)`: collapse whitespace runs to single spaces
(within a run every character but the last is dropped, the last becomes a
single space). -/
def collapseSpaces : List Char → List Char
  | [] => []
  | [c] => if pyIsSpace c then [' '] else [c]
  | c :: d :: t =>
    if pyIsSpace c && pyIsSpace d then collapseSpaces (d :: t)
    else (if pyIsSpace c then ' ' else c) :: collapseSpaces (d :: t)

/-- `normalize_name` (backend_db.py): lowercase, strip one leading title,
drop characters outside `[a-z\s\-']`, collapse whitespace, strip. -/
def normalize_name (name : String) : String :=
  if name = "" then ""
  else
    let n := pyStripL ((pyLower name).data)
    let n := stripTitle n
    let n := n.filter keepNameChar
    let n := collapseSpaces n
    String.mk (pyStripL n)

/-! ## `difflib.SequenceMatcher.ratio()` model

`fuzzy_match_score` falls back to `SequenceMatcher(None, a, b).ratio()`.
`ratio` is `2*M/T` where `M` is the total size of the matching blocks found
by recursively taking a longest common contiguous block and recursing on the
pieces to its left and right, and `T` is the sum of the lengths. -/

/-- Length of the longest common run at the start of both lists. -/
def cplen : List Char → List Char → Nat
  | a :: as, b :: bs => if a = b then cplen as bs + 1 else 0
  | _, _ => 0

/-- All `(i, j, k)` with `k` the length of the common run of `a` starting at
`i` and of `b` starting at `j`, listed with `i` ascending then `j`. -/
def lbCandidates (a b : List Char) : List (Nat × Nat × Nat) :=
  (List.range a.length).flatMap fun i =>
    (List.range b.length).map fun j => (i, j, cplen (a.drop i) (b.drop j))

/-- Longest common contiguous block `(i, j, k)`: maximal `k`, first such
start pair in scan order (strictly-greater updates over `lbCandidates`). -/
def longestBlock (a b : List Char) : Nat × Nat × Nat :=
  (lbCandidates a b).foldl (fun best c => if best.2.2 < c.2.2 then c else best)
    (0, 0, 0)

/-- Total matched size over the recursive matching-block decomposition.
`fuel` bounds the recursion depth; `a.length + 1` is always enough. -/
def matchTotal : Nat → List Char → List Char → Nat
  | 0, _, _ => 0
  | fuel + 1, a, b =>
    let (i, j, k) := longestBlock a b
    if k = 0 then 0
    else
      k + matchTotal fuel (a.take i) (b.take j) +
        matchTotal fuel (a.drop (i + k)) (b.drop (j + k))

/-- `SequenceMatcher(None, a, b).ratio()` (`1` when both inputs are empty,
as in `difflib._calculate_ratio`). -/
def smRatio (a b : List Char) : ℚ :=
  if a.length + b.length = 0 then 1
  else 2 * (matchTotal (a.length + 1) a b : ℚ) / ((a.length + b.length : Nat) : ℚ)

/-! ## `fuzzy_match_score` (gp_fuzzy_search.py lines 37-67) -/

/-- `GPFuzzySearch.fuzzy_match_score`. -/
def fuzzy_match_score (query target : String) : ℚ :=
  if query = "" ∨ target = "" then 0
  else
    let qu := pyStripL (pyUpper query).data
    let tu := pyStripL (pyUpper target).data
    if qu = tu then 1
    else if containsSub qu tu then 4 / 5
    else
      let queryWords := (wordsOf qu).eraseDups
      let targetWords := wordsOf tu
      if queryWords.all (fun w => targetWords.contains w) then 7 / 10
      else
        let commonWords := queryWords.filter (fun w => targetWords.contains w)
        if commonWords ≠ [] then
          (1 / 2) * ((commonWords.length : ℚ) / (queryWords.length : ℚ))
        else smRatio qu tu * (3 / 5)

/-! ## `postcode_distance` (gp_fuzzy_search.py lines 69-93) -/

/-- The district of an upper-cased stripped postcode: first word if it
contains a space, else the first four characters.  (When `' ' ∈ p` the
stripped `p` has a non-space character, so `split()` is never empty and the
Python indexing cannot raise.) -/
def pcDistrict (p : List Char) : List Char :=
  if p.contains ' ' then (wordsOf p).headD [] else p.take 4

/-- `GPFuzzySearch.postcode_distance`. -/
def postcode_distance (postcode1 postcode2 : String) : Nat :=
  if postcode1 = "" ∨ postcode2 = "" then 100
  else
    let p1 := pyStripL (pyUpper postcode1).data
    let p2 := pyStripL (pyUpper postcode2).data
    if p1 = p2 then 0
    else
      let district1 := pcDistrict p1
      let district2 := pcDistrict p2
      if district1 = district2 then 1
      else if district1.take 2 = district2.take 2 then 5
      else 10

/-! ## `GPFuzzySearch.search` (gp_fuzzy_search.py lines 95-271)

The `gp_practices_bulk` registry (created by `gp_bulk_importer.py`, with
`ods_code TEXT PRIMARY KEY`) is modelled as a list of rows.  The unused
`source` tag of a candidate dict is not modelled (it is never read), and
`match_reasons` (log strings) is not modelled.  The `gp_name` argument is
accepted but — as in the source — never used for candidate retrieval or
scoring (`gp_surname` is computed and then never read). -/

/-- A row of `gp_practices_bulk` (the columns `search` reads). -/
structure PracticeRow where
  ods_code : String
  name : String
  name_upper : String
  address_1 : String
  address_2 : String
  address_3 : String
  postcode : String
  postcode_district : String
  phone : String
deriving DecidableEq, Repr

/-- A `SearchResult` (without the informational `match_reasons`). -/
structure SearchResult where
  ods_code : String
  name : String
  address_1 : String
  address_2 : String
  postcode : String
  phone : String
  score : ℚ
deriving DecidableEq, Repr

/-- Python truthiness of an optional string argument. -/
def optTruthy : Option String → Bool
  | none => false
  | some s => s ≠ ""

/-- `patient_postcode.upper().split()[0] if ' ' in patient_postcode else
patient_postcode[:4]` — raises IndexError when the postcode contains a
space but is whitespace-only. -/
def patientDistrict (pc : String) : Except Unit String :=
  if pc.data.contains ' ' then
    match wordsOf (pyUpper pc).data with
    | [] => .error ()
    | w :: _ => .ok (String.mk w)
  else .ok (String.mk (pc.data.take 4))

/-- SQLite `column LIKE '%word%'` (ASCII case-insensitive containment). -/
def likeContains (column : String) (word : List Char) : Bool :=
  containsSub (word.map Char.toUpper) (column.data.map Char.toUpper)

/-- Strategy 1: rows whose `postcode_district` equals the patient district. -/
def strategy1 (db : List PracticeRow) (district : String) : List PracticeRow :=
  db.filter (fun r => r.postcode_district = district)

/-- Strategy 2: for every word of the practice hint longer than 3
characters, rows whose `name_upper` LIKE-matches it (`LIMIT 100`). -/
def strategy2 (db : List PracticeRow) (practice_hint : String) : List PracticeRow :=
  (wordsOf (pyUpper practice_hint).data).flatMap fun word =>
    if 3 < word.length then
      (db.filter (fun r => likeContains r.name_upper word)).take 100
    else []

/-- Strategy 3: like strategy 2 over the three address columns. -/
def strategy3 (db : List PracticeRow) (address_hint : String) : List PracticeRow :=
  (wordsOf (pyUpper address_hint).data).flatMap fun word =>
    if 3 < word.length then
      (db.filter (fun r =>
        likeContains r.address_1 word || likeContains r.address_2 word ||
          likeContains r.address_3 word)).take 100
    else []

/-- The full candidate list in source order (strategy 1, then 2, then 3). -/
def searchCandidates (db : List PracticeRow) (practice_hint address_hint : Option String)
    (district : Option String) : List PracticeRow :=
  (match district with
   | some d => strategy1 db d
   | none => []) ++
  (match practice_hint with
   | some ph => if ph ≠ "" then strategy2 db ph else []
   | none => []) ++
  (match address_hint with
   | some ah => if ah ≠ "" then strategy3 db ah else []
   | none => [])

/-- Deduplicate candidates by `ods_code`, first occurrence wins (the `seen`
dict keyed by `ods_code`; `seen.values()` preserves insertion order). -/
def dedupByOds (l : List PracticeRow) : List PracticeRow :=
  go [] l
where
  go (seen : List String) : List PracticeRow → List PracticeRow
    | [] => []
    | r :: t =>
      if r.ods_code ∈ seen then go seen t
      else r :: go (r.ods_code :: seen) t

/-- The postcode-proximity contribution `max(0, 10 - distance) / 10 * 20`
(0 unless both the hint and the candidate postcode are truthy). -/
def proximityTerm (patient_postcode : Option String) (r : PracticeRow) : ℚ :=
  match patient_postcode with
  | some pc =>
    if pc ≠ "" ∧ r.postcode ≠ "" then
      (max 0 (10 - (postcode_distance pc r.postcode : ℤ)) : ℤ) / 10 * 20
    else 0
  | none => 0

/-- Candidate score from the hints alone (everything except the
postcode-proximity term, which is `proximityTerm`). -/
def baseScore (practice_hint address_hint : Option String) (r : PracticeRow) : ℚ :=
  (match practice_hint with
   | some ph => if ph ≠ "" then fuzzy_match_score ph r.name * 40 else 0
   | none => 0) +
  (match address_hint with
   | some ah =>
     if ah ≠ "" then
       fuzzy_match_score ah (r.address_1 ++ " " ++ r.address_2 ++ " " ++ r.address_3) * 30
     else 0
   | none => 0) +
  (match practice_hint, address_hint with
   | some ph, some ah =>
     if ph ≠ "" ∧ ah ≠ "" ∧
         containsSub (pyUpper ph).data (pyUpper r.name).data ∧
         containsSub (pyUpper ah).data (pyUpper (r.address_1 ++ " " ++ r.address_2)).data
     then 20 else 0
   | _, _ => 0) +
  (match practice_hint with
   | some ph =>
     (if ph ≠ "" ∧ containsSub "HEALTH CENTRE".data (pyUpper ph).data ∧
         containsSub "HEALTH".data (pyUpper r.name).data then 5 else 0) +
     (if ph ≠ "" ∧ containsSub "SURGERY".data (pyUpper ph).data ∧
         containsSub "SURGERY".data (pyUpper r.name).data then 5 else 0) +
     (if ph ≠ "" ∧ containsSub "MEDICAL".data (pyUpper ph).data ∧
         containsSub "MEDICAL".data (pyUpper r.name).data then 5 else 0)
   | none => 0)

/-- Total score of one candidate. -/
def scoreOf (practice_hint address_hint patient_postcode : Option String)
    (r : PracticeRow) : ℚ :=
  baseScore practice_hint address_hint r + proximityTerm patient_postcode r

/-- Build the `SearchResult` for a scored candidate. -/
def mkResult (practice_hint address_hint patient_postcode : Option String)
    (r : PracticeRow) : SearchResult :=
  { ods_code := r.ods_code, name := r.name, address_1 := r.address_1,
    address_2 := r.address_2, postcode := r.postcode, phone := r.phone,
    score := scoreOf practice_hint address_hint patient_postcode r }

/-- Stable insertion for a descending sort by score (`sort` with
`reverse=True` keeps the original order of equal-score results). -/
def insertDesc (x : SearchResult) : List SearchResult → List SearchResult
  | [] => [x]
  | y :: t => if y.score ≤ x.score then x :: y :: t else y :: insertDesc x t

/-- `results.sort(key=lambda x: x.score, reverse=True)`. -/
def sortDesc (l : List SearchResult) : List SearchResult :=
  l.foldr insertDesc []

/-- `GPFuzzySearch.search` (the `gp_name` argument is unused in the
source past the dead `gp_surname` computation, and is omitted here). -/
def search (db : List PracticeRow) (practice_hint address_hint patient_postcode : Option String)
    (limit : Nat) : Except Unit (List SearchResult) := do
  let district ←
    match patient_postcode with
    | some pc => if pc ≠ "" then (patientDistrict pc).map some else pure none
    | none => pure none
  let candidates := searchCandidates db practice_hint address_hint district
  let results := (dedupByOds candidates).map
    (mkResult practice_hint address_hint patient_postcode)
  pure ((sortDesc results).take limit)

/-- Score of the top-ranked result (`0` for an empty result list). -/
def headScore : List SearchResult → ℚ
  | [] => 0
  | r :: _ => r.score

/-! ## Ingestion model (backend_db.py lines 101-586)

JSON leaf values that the code may call `.strip()` / `.lower()` on, or
compare with `>`, are modelled by `JVal`: either a string or a (truthy or
falsy) number.  Calling a string method on a number raises, which is how a
Python exception can occur inside a document's transaction.  Sub-objects
(`patient`, `address`, `gp`, ...) are modelled as optional records; a missing
key is `none`.  `Except Unit` models exception propagation: `_ingest_file`
rolls the transaction back on any exception and re-raises, so the caller
observes the error together with the unchanged pre-transaction state. -/

/-- A JSON leaf value. -/
inductive JVal where
  | s (v : String)
  | num (n : Int)
deriving DecidableEq, Repr

/-- Python truthiness of a JSON leaf. -/
def JVal.truthy : JVal → Bool
  | .s v => v ≠ ""
  | .num n => n ≠ 0

/-- Use a JSON leaf as a string; raises (AttributeError) on a number. -/
def JVal.asStr : JVal → Except Unit String
  | .s v => .ok v
  | .num _ => .error ()

/-- The Python idiom `bool(x and x.strip())`. -/
def jTruthyStripped (v : JVal) : Except Unit Bool :=
  if v.truthy then do
    let s ← v.asStr
    pure (pyStrip s ≠ "")
  else pure false

/-- The Python idiom `x if x and x.strip() else None`, returning the
(unstripped) string when the check passes. -/
def optNonEmptyStr : Option JVal → Except Unit (Option String)
  | none => pure none
  | some v =>
    if v.truthy then do
      let s ← v.asStr
      pure (if pyStrip s ≠ "" then some s else none)
    else pure none

/-- One step of the entity-update loops: `if val and val.strip():
updates.append(field = val)` — a non-empty supplied string replaces the
stored value, anything else leaves it unchanged. -/
def updIf (cur : Option JVal) (newv : Option JVal) : Except Unit (Option JVal) := do
  match ← optNonEmptyStr newv with
  | some _ => pure newv
  | none => pure cur

/-- The pure outcome of a successful `updIf`: a non-empty supplied string
**replaces** the stored value whether or not it is currently null
(last-write-wins); everything else leaves the stored value unchanged. -/
def updOf (cur newv : Option JVal) : Option JVal :=
  match newv with
  | some (.s v) => if pyStrip v ≠ "" then some (.s v) else cur
  | _ => cur

/-- Lexicographic strict comparison of character lists by code point
(Python string `<`). -/
def strLtb : List Char → List Char → Bool
  | [], [] => false
  | [], _ :: _ => true
  | _ :: _, [] => false
  | a :: as, b :: bs =>
    if a.toNat < b.toNat then true
    else if b.toNat < a.toNat then false
    else strLtb as bs

/-- Python `a < b` on strings. -/
def pyStrLt (a b : String) : Bool := strLtb a.data b.data

/-- Python `>` between two JSON leaves (raises on a string/number mix). -/
def jGt : JVal → JVal → Except Unit Bool
  | .s a, .s b => pure (pyStrLt b a)
  | .num a, .num b => pure (decide (b < a))
  | _, _ => .error ()

/-- Association-list lookup (Python dict `get`). -/
def alookup {κ ν : Type} [DecidableEq κ] (m : List (κ × ν)) (k : κ) : Option ν :=
  (m.find? (fun e => e.1 = k)).map (·.2)

/-- Add to a set kept as an insertion-ordered duplicate-free list. -/
def setAdd {α : Type} [DecidableEq α] (l : List α) (x : α) : List α :=
  if x ∈ l then l else l ++ [x]

/-- `m.setdefault(k, set()).add(x)`. -/
def mapAdd {κ ν : Type} [DecidableEq κ] [DecidableEq ν]
    (m : List (κ × List ν)) (k : κ) (x : ν) : List (κ × List ν) :=
  if (m.find? (fun e => e.1 = k)).isSome then
    m.map (fun e => if e.1 = k then (e.1, setAdd e.2 x) else e)
  else m ++ [(k, [x])]

/-- `A or B` on optional strings where `""` is falsy. -/
def pyOrStr (x : Option String) (y : String) : String :=
  match x with
  | some s => if s = "" then y else s
  | none => y

/-- `A or B` on optional JSON leaves (Python truthiness). -/
def pyOrJV (x y : Option JVal) : Option JVal :=
  match x with
  | some v => if v.truthy then some v else y
  | none => y

/-! ### Parsed fact-file data -/

/-- The `patient` sub-object's `phones`. -/
structure PhonesJson where
  home : Option JVal
  work : Option JVal
  mobile : Option JVal
deriving DecidableEq, Repr

/-- The `patient` sub-object. -/
structure PatientJson where
  full_name : Option JVal
  date_of_birth : Option JVal
  phones : Option PhonesJson
deriving DecidableEq, Repr

/-- The `address` sub-object. -/
structure AddressJson where
  line_1 : Option JVal
  line_2 : Option JVal
  city : Option JVal
  county : Option JVal
  postcode : Option JVal
  postcode_district : Option JVal
  postcode_valid : Option Bool
deriving DecidableEq, Repr

/-- The `gp` sub-object. -/
structure GpJson where
  name : Option JVal
  practice : Option JVal
  address : Option JVal
  postcode : Option JVal
deriving DecidableEq, Repr

/-- The `extraction` sub-object. -/
structure ExtractionJson where
  method : Option JVal
  confidence : Option JVal
deriving DecidableEq, Repr

/-- One entry of a document's `pages`. -/
structure PageJson where
  page_number : Option Int
  address_type : Option String
  patient : Option PatientJson
  address : Option AddressJson
  gp : Option GpJson
  extraction : Option ExtractionJson
  is_prime : Option Bool
  specialist_name : Option JVal
deriving DecidableEq, Repr

/-- One entry of a document's `overrides`. -/
structure OverrideJson where
  page_number : Option Int
  match_address_type : Option String
  override_date : Option JVal
  override_reason : Option JVal
  patient : Option PatientJson
  address : Option AddressJson
  gp : Option GpJson
  address_type : Option String
  is_prime : Option Bool
  specialist_name : Option JVal
deriving DecidableEq, Repr

/-- A parsed fact file; `pages = none` models a JSON object without the
`pages` key. -/
structure DocData where
  schema_version : Option String
  extracted_at : Option String
  page_count : Option Int
  pages : Option (List PageJson)
  overrides : List OverrideJson
deriving DecidableEq, Repr

def PhonesJson.empty : PhonesJson := ⟨none, none, none⟩
def PatientJson.empty : PatientJson := ⟨none, none, none⟩
def AddressJson.empty : AddressJson := ⟨none, none, none, none, none, none, none⟩
def GpJson.empty : GpJson := ⟨none, none, none, none⟩
def ExtractionJson.empty : ExtractionJson := ⟨none, none⟩

/-! ### Database rows -/

/-- A `patients` row. -/
structure PatientRow where
  id : Nat
  full_name : String
  full_name_normalized : String
  date_of_birth : Option String
  address_line_1 : Option JVal
  address_line_2 : Option JVal
  city : Option JVal
  county : Option JVal
  postcode : Option JVal
  postcode_district : Option JVal
  phone_home : Option JVal
  phone_work : Option JVal
  phone_mobile : Option JVal
  document_count : Nat
  first_seen_at : String
  last_seen_at : String
deriving DecidableEq, Repr

/-- A `practitioners` row. -/
structure PractitionerRow where
  id : Nat
  ptype : String
  full_name : String
  full_name_normalized : String
  practice_name : Option JVal
  address : Option JVal
  postcode : Option JVal
  document_count : Nat
  first_seen_at : String
  last_seen_at : String
deriving DecidableEq, Repr

/-- A `patient_practitioners` link row. -/
structure PPLink where
  patient_id : Nat
  practitioner_id : Nat
  relationship_type : String
  document_count : Nat
  first_seen_at : String
  last_seen_at : String
deriving DecidableEq, Repr

/-- A `documents` row. -/
structure DocumentRow where
  document_id : String
  json_hash : String
  schema_version : Option String
  extracted_at : Option String
  page_count : Option Int
  ingested_at : String
  updated_at : String
deriving DecidableEq, Repr

/-- An `extractions` row. -/
structure ExtractionRow where
  document_id : String
  page_number : Option Int
  address_type : String
  is_prime : Option Nat
  patient_id : Option Nat
  practitioner_id : Option Nat
  patient_full_name : Option JVal
  patient_date_of_birth : Option JVal
  patient_phone_home : Option JVal
  patient_phone_work : Option JVal
  patient_phone_mobile : Option JVal
  address_line_1 : Option JVal
  address_line_2 : Option JVal
  address_city : Option JVal
  address_county : Option JVal
  address_postcode : Option JVal
  address_postcode_valid : Option Nat
  address_postcode_district : Option JVal
  gp_name : Option JVal
  gp_practice : Option JVal
  gp_address : Option JVal
  gp_postcode : Option JVal
  extraction_method : Option JVal
  extraction_confidence : Option JVal
  specialist_name : Option JVal
  has_override : Nat
  override_reason : Option JVal
  override_date : Option JVal
deriving DecidableEq, Repr

/-- The backend database state. -/
structure DB where
  documents : List DocumentRow
  extractions : List ExtractionRow
  patients : List PatientRow
  nextPatientId : Nat
  practitioners : List PractitionerRow
  nextPractitionerId : Nat
  patientDocuments : List (Nat × String)
  patientPractitioners : List PPLink
deriving DecidableEq, Repr

/-- The empty database, with SQLite rowids starting at 1. -/
def DB.empty : DB := ⟨[], [], [], 1, [], 1, [], []⟩

/-! ### Entity resolution (backend_db.py lines 403-568) -/

/-- The row-matching step of `_resolve_patient`: exact
(normalized name, date of birth) when a DOB is supplied, otherwise a unique
normalized-name match (`rows[0] if len(rows) == 1 else None`). -/
def findPatientMatch (patients : List PatientRow) (nn : String)
    (dobOpt : Option String) : Option PatientRow :=
  match dobOpt with
  | some d => (patients.filter (fun p => p.full_name_normalized = nn ∧ p.date_of_birth = some d)).head?
  | none =>
    let rows := patients.filter (fun p => p.full_name_normalized = nn)
    if rows.length = 1 then rows.head? else none

/-- The `UPDATE patients SET ...` built on a match: each address/phone field
with a non-empty supplied value is replaced, `document_count` is always
incremented and `last_seen_at` always set to `now`. -/
def updatePatientRow (p : PatientRow) (address : AddressJson) (phones : PhonesJson)
    (now : String) : Except Unit PatientRow := do
  let l1 ← updIf p.address_line_1 address.line_1
  let l2 ← updIf p.address_line_2 address.line_2
  let ci ← updIf p.city address.city
  let co ← updIf p.county address.county
  let pc ← updIf p.postcode address.postcode
  let pd ← updIf p.postcode_district address.postcode_district
  let hh ← updIf p.phone_home phones.home
  let ww ← updIf p.phone_work phones.work
  let mm ← updIf p.phone_mobile phones.mobile
  pure { p with
    address_line_1 := l1, address_line_2 := l2, city := ci, county := co,
    postcode := pc, postcode_district := pd, phone_home := hh, phone_work := ww,
    phone_mobile := mm, document_count := p.document_count + 1, last_seen_at := now }

/-- `_resolve_patient`.  Returns the patient id (or `none`), the updated
`patients` table and the next fresh rowid. -/
def resolvePatient (patients : List PatientRow) (nextId : Nat) (full_name : JVal)
    (date_of_birth : Option JVal) (address : AddressJson) (phones : PhonesJson)
    (now : String) : Except Unit (Option Nat × List PatientRow × Nat) := do
  let fs ← full_name.asStr
  let nn := normalize_name fs
  if nn = "" then pure (none, patients, nextId)
  else do
    let dobOpt ← optNonEmptyStr date_of_birth
    match findPatientMatch patients nn dobOpt with
    | some p => do
      let p' ← updatePatientRow p address phones now
      pure (some p.id, patients.map (fun q => if q.id = p.id then p' else q), nextId)
    | none =>
      pure (some nextId, patients ++ [{
        id := nextId, full_name := pyStrip fs, full_name_normalized := nn,
        date_of_birth := dobOpt,
        address_line_1 := address.line_1, address_line_2 := address.line_2,
        city := address.city, county := address.county, postcode := address.postcode,
        postcode_district := address.postcode_district,
        phone_home := phones.home, phone_work := phones.work,
        phone_mobile := phones.mobile,
        document_count := 1, first_seen_at := now, last_seen_at := now }], nextId + 1)

/-- The row-matching step of `_resolve_practitioner`: first row with the
normalized name and type. -/
def findPractitionerMatch (ps : List PractitionerRow) (nn ty : String) :
    Option PractitionerRow :=
  (ps.filter (fun p => p.full_name_normalized = nn ∧ p.ptype = ty)).head?

/-- The `UPDATE practitioners SET ...` built on a match. -/
def updatePractitionerRow (p : PractitionerRow)
    (practice_name address postcode : Option JVal) (now : String) :
    Except Unit PractitionerRow := do
  let pn ← updIf p.practice_name practice_name
  let ad ← updIf p.address address
  let pc ← updIf p.postcode postcode
  pure { p with
    practice_name := pn, address := ad, postcode := pc,
    document_count := p.document_count + 1, last_seen_at := now }

/-- `_resolve_practitioner`. -/
def resolvePractitioner (practitioners : List PractitionerRow) (nextId : Nat)
    (full_name : JVal) (practice_name address postcode : Option JVal)
    (prac_type : String) (now : String) :
    Except Unit (Option Nat × List PractitionerRow × Nat) := do
  let fs ← full_name.asStr
  let nn := normalize_name fs
  if nn = "" then pure (none, practitioners, nextId)
  else
    match findPractitionerMatch practitioners nn prac_type with
    | some p => do
      let p' ← updatePractitionerRow p practice_name address postcode now
      pure (some p.id, practitioners.map (fun q => if q.id = p.id then p' else q), nextId)
    | none =>
      pure (some nextId, practitioners ++ [{
        id := nextId, ptype := prac_type, full_name := pyStrip fs,
        full_name_normalized := nn, practice_name := practice_name,
        address := address, postcode := postcode,
        document_count := 1, first_seen_at := now, last_seen_at := now }], nextId + 1)

/-! ### Link upserts (backend_db.py lines 570-586) -/

/-- Does a link row match a `(patient_id, practitioner_id, relationship)`
triple? -/
def linkMatches (l : PPLink) (t : Nat × Nat × String) : Bool :=
  l.patient_id = t.1 && l.practitioner_id = t.2.1 && l.relationship_type = t.2.2

/-- The `DO UPDATE` arm of the link upsert. -/
def linkBump (now : String) (l : PPLink) : PPLink :=
  { l with document_count := l.document_count + 1, last_seen_at := now }

/-- `_link_patient_practitioner`: upsert incrementing `document_count` and
bumping `last_seen_at`. -/
def linkOne (links : List PPLink) (t : Nat × Nat × String) (now : String) : List PPLink :=
  if links.any (fun l => linkMatches l t) then
    links.map (fun l => if linkMatches l t then linkBump now l else l)
  else
    links ++ [{
      patient_id := t.1, practitioner_id := t.2.1,
      relationship_type := t.2.2, document_count := 1,
      first_seen_at := now, last_seen_at := now }]

/-- `document_count` of a link triple (`0` when the row is absent). -/
def linkCount (links : List PPLink) (t : Nat × Nat × String) : Nat :=
  match links.find? (fun l => linkMatches l t) with
  | some l => l.document_count
  | none => 0

/-- One guarded linking step: skip if the pair was already linked for this
document, otherwise record it and upsert. -/
def linkStep (now : String) (acc : List (Nat × Nat × String) × List PPLink)
    (t : Nat × Nat × String) : List (Nat × Nat × String) × List PPLink :=
  if t ∈ acc.1 then acc else (acc.1 ++ [t], linkOne acc.2 t now)

/-- Strategy 1 pairs: every patient and practitioner sharing a page. -/
def strategy1Pairs (pagePatients : List (Option Int × List Nat))
    (pagePractitioners : List (Option Int × List (Nat × String))) :
    List (Nat × Nat × String) :=
  pagePatients.flatMap fun e =>
    e.2.flatMap fun pid =>
      ((alookup pagePractitioners e.1).getD []).map fun pr => (pid, pr.1, pr.2)

/-- Strategy 2 pairs: for a single-patient document, that patient with every
practitioner seen anywhere in the document. -/
def strategy2Pairs (seenPatients : List Nat) (seenPractitioners : List (Nat × String)) :
    List (Nat × Nat × String) :=
  match seenPatients with
  | [p] => seenPractitioners.map fun pr => (p, pr.1, pr.2)
  | _ => []

/-- The cross-row linking block of `_ingest_file` (lines 362-379): strategy 1
then strategy 2, both guarded by the per-document `seen` pair set. -/
def linkPhase (links : List PPLink) (pagePatients : List (Option Int × List Nat))
    (pagePractitioners : List (Option Int × List (Nat × String)))
    (seenPatients : List Nat) (seenPractitioners : List (Nat × String))
    (now : String) : List PPLink :=
  ((strategy1Pairs pagePatients pagePractitioners ++
      strategy2Pairs seenPatients seenPractitioners).foldl (linkStep now) ([], links)).2

/-! ### Override precedence (backend_db.py lines 198-210) -/

/-- An override-map key: `(page_number, match_address_type)`. -/
abbrev OvKey := Option Int × Option String

/-- The key an override is stored under. -/
def ovKey (ov : OverrideJson) : OvKey := (ov.page_number, ov.match_address_type)

/-- `override.get("override_date", "")`. -/
def odate (ov : OverrideJson) : JVal := ov.override_date.getD (.s "")

/-- The string an override's date compares as (overrides in the claims all
carry string dates; a non-string date is read as `""` here and only matters
through the `jGt` error path). -/
def dateStr (ov : OverrideJson) : String :=
  match odate ov with
  | .s d => d
  | .num _ => ""

/-- One step of the override-map construction: keep the first override for a
key unless a later one has a strictly greater `override_date`. -/
def ovStep (m : List (OvKey × OverrideJson)) (ov : OverrideJson) :
    Except Unit (List (OvKey × OverrideJson)) :=
  match alookup m (ovKey ov) with
  | none => pure (m ++ [(ovKey ov, ov)])
  | some existing => do
    let b ← jGt (odate ov) (odate existing)
    if b then pure (m.map (fun e => if e.1 = ovKey ov then (e.1, ov) else e))
    else pure m

/-- Build the override map (backend_db.py lines 199-210). -/
def buildOverrideMap (os : List OverrideJson) :
    Except Unit (List (OvKey × OverrideJson)) :=
  os.foldlM ovStep []

/-! ### Per-page processing (backend_db.py lines 219-360) -/

/-- The effective values of a page after override application. -/
structure EffectivePage where
  override : Option OverrideJson
  patient : PatientJson
  address : AddressJson
  gp : GpJson
  address_type : String
  is_prime : Option Bool
  specialist : Option JVal
  extraction : ExtractionJson
  phones : PhonesJson
deriving DecidableEq, Repr

/-- `X if override and override.get(k) else page.get(k)` for a sub-object. -/
def effSub {α : Type} (ov : Option OverrideJson) (f : OverrideJson → Option α)
    (pg : Option α) : Option α :=
  match ov with
  | some o => match f o with
    | some x => some x
    | none => pg
  | none => pg

/-- Compute a page's effective values from the override map. -/
def effectivePage (omap : List (OvKey × OverrideJson)) (page : PageJson) :
    EffectivePage :=
  let address_type := page.address_type.getD "patient"
  let ov := alookup omap (page.page_number, some address_type)
  let patient := (effSub ov (·.patient) page.patient).getD PatientJson.empty
  { override := ov
    patient := patient
    address := (effSub ov (·.address) page.address).getD AddressJson.empty
    gp := (effSub ov (·.gp) page.gp).getD GpJson.empty
    address_type := pyOrStr (ov.bind (·.address_type)) address_type
    is_prime :=
      match ov with
      | some o => match o.is_prime with
        | some b => some b
        | none => page.is_prime
      | none => page.is_prime
    specialist := pyOrJV (ov.bind (·.specialist_name)) page.specialist_name
    extraction := page.extraction.getD ExtractionJson.empty
    phones := patient.phones.getD PhonesJson.empty }

/-- The `extractions` upsert key `(document_id, page_number, address_type)`. -/
def extKey (e : ExtractionRow) : String × Option Int × String :=
  (e.document_id, e.page_number, e.address_type)

/-- `INSERT ... ON CONFLICT(document_id, page_number, address_type) DO
UPDATE`.  A NULL `page_number` never conflicts in a SQLite unique index, so
such rows are always inserted. -/
def upsertExtraction (exts : List ExtractionRow) (e : ExtractionRow) :
    List ExtractionRow :=
  match e.page_number with
  | none => exts ++ [e]
  | some _ =>
    if exts.any (fun x => extKey x = extKey e) then
      exts.map (fun x => if extKey x = extKey e then e else x)
    else exts ++ [e]

/-- Per-document accumulator carried through the page loop. -/
structure PageAcc where
  patients : List PatientRow
  nextPatientId : Nat
  practitioners : List PractitionerRow
  nextPractitionerId : Nat
  extractions : List ExtractionRow
  seenPatients : List Nat
  seenPractitioners : List (Nat × String)
  pagePatients : List (Option Int × List Nat)
  pagePractitioners : List (Option Int × List (Nat × String))
deriving DecidableEq, Repr

/-- The body of `for page in data["pages"]`. -/
def processPage (stem : String) (omap : List (OvKey × OverrideJson)) (now : String)
    (acc : PageAcc) (page : PageJson) : Except Unit PageAcc := do
  let ep := effectivePage omap page
  let (patient_id, patients, nextPid) ←
    match ep.patient.full_name with
    | some pnv => do
      let ok ← jTruthyStripped pnv
      if ok then
        resolvePatient acc.patients acc.nextPatientId pnv ep.patient.date_of_birth
          ep.address ep.phones now
      else pure ((none : Option Nat), acc.patients, acc.nextPatientId)
    | none => pure ((none : Option Nat), acc.patients, acc.nextPatientId)
  let seenPatients :=
    match patient_id with
    | some pid => setAdd acc.seenPatients pid
    | none => acc.seenPatients
  let (gpId, practitioners1, nextPrid1) ←
    match ep.gp.name with
    | some gnv => do
      let ok ← jTruthyStripped gnv
      if ok then
        resolvePractitioner acc.practitioners acc.nextPractitionerId gnv
          ep.gp.practice ep.gp.address ep.gp.postcode "GP" now
      else pure ((none : Option Nat), acc.practitioners, acc.nextPractitionerId)
    | none => pure ((none : Option Nat), acc.practitioners, acc.nextPractitionerId)
  let (practitioner_id, practitioners, nextPrid) ←
    match (if ep.address_type = "specialist" then ep.specialist else none) with
    | some sv =>
      if sv.truthy then
        resolvePractitioner practitioners1 nextPrid1 sv none none none "Consultant" now
      else pure (gpId, practitioners1, nextPrid1)
    | none => pure (gpId, practitioners1, nextPrid1)
  let pagePatients :=
    match patient_id with
    | some pid => mapAdd acc.pagePatients page.page_number pid
    | none => acc.pagePatients
  let relType := if ep.address_type = "specialist" then "Consultant" else "GP"
  let (pagePractitioners, seenPractitioners) :=
    match practitioner_id with
    | some prid =>
      (mapAdd acc.pagePractitioners page.page_number (prid, relType),
        setAdd acc.seenPractitioners (prid, relType))
    | none => (acc.pagePractitioners, acc.seenPractitioners)
  let ext : ExtractionRow :=
    { document_id := stem
      page_number := page.page_number
      address_type := ep.address_type
      is_prime :=
        match ep.is_prime with
        | some true => some 1
        | some false => some 0
        | none => none
      patient_id := patient_id
      practitioner_id := practitioner_id
      patient_full_name := ep.patient.full_name
      patient_date_of_birth := ep.patient.date_of_birth
      patient_phone_home := ep.phones.home
      patient_phone_work := ep.phones.work
      patient_phone_mobile := ep.phones.mobile
      address_line_1 := ep.address.line_1
      address_line_2 := ep.address.line_2
      address_city := ep.address.city
      address_county := ep.address.county
      address_postcode := ep.address.postcode
      address_postcode_valid :=
        match ep.address.postcode_valid with
        | some true => some 1
        | some false => some 0
        | none => none
      address_postcode_district := ep.address.postcode_district
      gp_name := ep.gp.name
      gp_practice := ep.gp.practice
      gp_address := ep.gp.address
      gp_postcode := ep.gp.postcode
      extraction_method := ep.extraction.method
      extraction_confidence := ep.extraction.confidence
      specialist_name := ep.specialist
      has_override := if ep.override.isSome then 1 else 0
      override_reason := ep.override.bind (·.override_reason)
      override_date := ep.override.bind (·.override_date) }
  pure {
    patients := patients, nextPatientId := nextPid,
    practitioners := practitioners, nextPractitionerId := nextPrid,
    extractions := upsertExtraction acc.extractions ext,
    seenPatients := seenPatients, seenPractitioners := seenPractitioners,
    pagePatients := pagePatients, pagePractitioners := pagePractitioners }

/-! ### Document ingestion (backend_db.py lines 101-397) -/

/-- `INSERT INTO documents ... ON CONFLICT(document_id) DO UPDATE`. -/
def upsertDocument (docs : List DocumentRow) (stem hash : String)
    (sv ea : Option String) (pcn : Option Int) (now : String) : List DocumentRow :=
  if docs.any (fun d => d.document_id = stem) then
    docs.map (fun d =>
      if d.document_id = stem then
        { d with
          json_hash := hash, schema_version := sv, extracted_at := ea,
          page_count := pcn, updated_at := now }
      else d)
  else
    docs ++ [{
      document_id := stem, json_hash := hash, schema_version := sv,
      extracted_at := ea, page_count := pcn, ingested_at := now, updated_at := now }]

/-- The transaction body of `_ingest_file` (everything between `BEGIN` and
`commit`).  An error here corresponds to an exception that rolls the whole
transaction back. -/
def ingestCore (db : DB) (stem hash : String) (data : DocData)
    (pages : List PageJson) (now : String) : Except Unit DB := do
  let documents := upsertDocument db.documents stem hash data.schema_version
    data.extracted_at data.page_count now
  let extractions := db.extractions.filter (fun e => e.document_id ≠ stem)
  let patientDocuments := db.patientDocuments.filter (fun pd => pd.2 ≠ stem)
  let omap ← buildOverrideMap data.overrides
  let acc0 : PageAcc :=
    { patients := db.patients, nextPatientId := db.nextPatientId,
      practitioners := db.practitioners, nextPractitionerId := db.nextPractitionerId,
      extractions := extractions, seenPatients := [], seenPractitioners := [],
      pagePatients := [], pagePractitioners := [] }
  let acc ← pages.foldlM (processPage stem omap now) acc0
  let links := linkPhase db.patientPractitioners acc.pagePatients
    acc.pagePractitioners acc.seenPatients acc.seenPractitioners now
  let pdocs := acc.seenPatients.foldl
    (fun l pid => if (pid, stem) ∈ l then l else l ++ [(pid, stem)]) patientDocuments
  pure {
    documents := documents, extractions := acc.extractions,
    patients := acc.patients, nextPatientId := acc.nextPatientId,
    practitioners := acc.practitioners, nextPractitionerId := acc.nextPractitionerId,
    patientDocuments := pdocs, patientPractitioners := links }

/-- One fact file handed to the ingester: the path stem, the SHA-256 of its
bytes (the hash function is kept abstract by making the digest part of the
input: byte-identical content means an identical digest), its parse result
(`none`: `json.load` raises) and the wall-clock time of this ingestion. -/
structure IngestInput where
  stem : String
  hash : String
  json : Option DocData
  now : String
deriving DecidableEq, Repr

/-- `_ingest_file`: hash-gate, parse, `pages` check, then the transaction.
`ok (false, _)` is a skip, `ok (true, _)` a processed document, `error` an
exception (after rollback, hence with the caller seeing the old state). -/
def ingestFile (db : DB) (inp : IngestInput) : Except Unit (Bool × DB) :=
  if (match db.documents.find? (fun d => d.document_id = inp.stem) with
      | some r => r.json_hash = inp.hash
      | none => false : Bool) then
    pure (false, db)
  else
    match inp.json with
    | none => .error ()
    | some data =>
      match data.pages with
      | none => pure (false, db)
      | some pages =>
        (ingestCore db inp.stem inp.hash data pages inp.now).map (fun db' => (true, db'))

/-- The running totals of `ingest_directory`. -/
structure Stats where
  processed : Nat
  skipped : Nat
  errors : Nat
deriving DecidableEq, Repr

/-- One iteration of the `ingest_directory` loop: count the outcome; an
exception leaves the database unchanged and the loop continues. -/
def ingestStep (acc : Stats × DB) (inp : IngestInput) : Stats × DB :=
  match ingestFile acc.2 inp with
  | .ok (true, db') => ({ acc.1 with processed := acc.1.processed + 1 }, db')
  | .ok (false, db') => ({ acc.1 with skipped := acc.1.skipped + 1 }, db')
  | .error _ => ({ acc.1 with errors := acc.1.errors + 1 }, acc.2)

/-- The `ingest_directory` loop from a given starting state. -/
def ingestDirectoryFrom (acc : Stats × DB) (inps : List IngestInput) : Stats × DB :=
  inps.foldl ingestStep acc

/-- `ingest_directory`. -/
def ingestDirectory (db : DB) (inps : List IngestInput) : Stats × DB :=
  ingestDirectoryFrom (⟨0, 0, 0⟩, db) inps

/-! ### Concrete scenario data used by counterexamples and witnesses -/

/-- A one-page document naming a patient, with no date of birth. -/
def namedPage (nm : String) : PageJson :=
  { page_number := some 1, address_type := none,
    patient := some { full_name := some (.s nm), date_of_birth := none, phones := none },
    address := none, gp := none, extraction := none, is_prime := none,
    specialist_name := none }

/-- A parsed fact file with a single page naming `nm`. -/
def namedDoc (nm : String) : DocData :=
  { schema_version := none, extracted_at := none, page_count := some 1,
    pages := some [namedPage nm], overrides := [] }

/-- First "John Smith" document. -/
def smithInp1 : IngestInput := ⟨"doc1", "h1", some (namedDoc "John Smith"), "t1"⟩

/-- Second "John Smith" document (different content, different stem). -/
def smithInp2 : IngestInput := ⟨"doc2", "h2", some (namedDoc "John Smith"), "t2"⟩

/-- A page whose patient `full_name` is a truthy non-string JSON value:
`patient_name.strip()` raises `AttributeError` inside the transaction. -/
def badPage : PageJson :=
  { page_number := some 1, address_type := none,
    patient := some { full_name := some (.num 5), date_of_birth := none, phones := none },
    address := none, gp := none, extraction := none, is_prime := none,
    specialist_name := none }

/-- A fact file that raises mid-transaction. -/
def badDoc : DocData :=
  { schema_version := none, extracted_at := none, page_count := none,
    pages := some [badPage], overrides := [] }

/-- The erroring ingest input. -/
def badInp : IngestInput := ⟨"bad", "hb", some badDoc, "t9"⟩

/-- A fact file that parses but has no `pages` key. -/
def noPagesDoc : DocData :=
  { schema_version := some "1", extracted_at := none, page_count := none,
    pages := none, overrides := [] }

/-- Ingest input for the `pages`-less fact file. -/
def noPagesInp : IngestInput := ⟨"np", "hn", some noPagesDoc, "t3"⟩

/-- An existing patient row with a populated `address_line_1`. -/
def wheatleyRow : PatientRow :=
  { id := 1, full_name := "Patricia Wheatley",
    full_name_normalized := "patricia wheatley",
    date_of_birth := some "1960-01-01",
    address_line_1 := some (.s "1 Old Street"),
    address_line_2 := none, city := none, county := none, postcode := none,
    postcode_district := none, phone_home := none, phone_work := none,
    phone_mobile := none, document_count := 1,
    first_seen_at := "t0", last_seen_at := "t0" }

/-- A later document's address for the same patient: a different
`address_line_1`. -/
def wheatleyAddr2 : AddressJson :=
  { AddressJson.empty with line_1 := some (.s "2 New Street") }

/-- The row after the second document is resolved against `wheatleyRow`. -/
def wheatleyRow2 : PatientRow :=
  { wheatleyRow with address_line_1 := some (.s "2 New Street"),
                     document_count := 2, last_seen_at := "t1" }

/-- An override dated 2024-01-01 for `(page 1, "patient")`. -/
def ovJan : OverrideJson :=
  { page_number := some 1, match_address_type := some "patient",
    override_date := some (.s "2024-01-01"), override_reason := some (.s "fix"),
    patient := none, address := none, gp := none, address_type := none,
    is_prime := none, specialist_name := none }

/-- A later override for the same key dated 2024-06-01. -/
def ovJun : OverrideJson := { ovJan with override_date := some (.s "2024-06-01") }

/-- The override map built from the January and June overrides. -/
def ovMapJune : List (OvKey × OverrideJson) := [((some 1, some "patient"), ovJun)]

/-- A one-row registry for the fuzzy-search witness: practice "AAAA" in
postcode district "AB1". -/
def c8row : PracticeRow := ⟨"X1", "AAAA", "AAAA", "", "", "", "AB1 2CD", "AB1", ""⟩

end AddressExtractor

namespace AddressExtractor

/-! ## Theorems -/

/-! ### C7: name normalization -/

/-- **C7.**  `normalize_name` is a deterministic pure function of its input
(identical inputs normalize identically), and on the concrete examples:
`normalize_name "Dr. Jane O'Brien-Smith" = normalize_name
"JANE O'BRIEN-SMITH"` while both differ from `normalize_name "Jane Smith"`. -/
theorem normalize_name_deterministic_and_examples :
    (∀ s t : String, s = t → normalize_name s = normalize_name t) ∧
    normalize_name "Dr. Jane O'Brien-Smith" = normalize_name "JANE O'BRIEN-SMITH" ∧
    normalize_name "Dr. Jane O'Brien-Smith" ≠ normalize_name "Jane Smith" ∧
    normalize_name "JANE O'BRIEN-SMITH" ≠ normalize_name "Jane Smith" := by
  refine ⟨fun s t h => h ▸ rfl, by decide, by decide, by decide⟩

/-- Witness for C7: the determinism clause applied at a concrete input. -/
theorem normalize_name_deterministic_witness :
    normalize_name "Dr. Jane O'Brien-Smith" = normalize_name "Dr. Jane O'Brien-Smith" :=
  normalize_name_deterministic_and_examples.1 _ _ rfl

/-! ### C3: two "John Smith" documents without a DOB -/

/-- **C3, counterexample.**  Starting from an empty store, ingesting two
documents that both name "John Smith" with no date of birth does **not**
produce two patient rows: the unique-name match merges the second document
into the first patient, so there is exactly one row. -/
theorem john_smith_two_docs_cex :
    ¬ ((ingestDirectory DB.empty [smithInp1, smithInp2]).2.patients.length = 2) := by
  decide

/-- **C3, amended.**  Two "John Smith" documents with no DOB on either,
ingested into an empty store, yield **one** patient row with
`document_count = 2` (the second document merges into the unique existing
name match); both documents are counted as processed. -/
theorem john_smith_two_docs_merge :
    (ingestDirectory DB.empty [smithInp1, smithInp2]).2.patients.length = 1 ∧
    (ingestDirectory DB.empty [smithInp1, smithInp2]).2.patients.map
      (fun p => p.document_count) = [2] ∧
    (ingestDirectory DB.empty [smithInp1, smithInp2]).1 = ⟨2, 0, 0⟩ := by
  refine ⟨by decide, by decide, by decide⟩

/-! ### C4: exception during a document's transaction -/

/-- **C4.**  If ingesting one document raises an exception, the batch state
is unchanged for that document (the transaction was rolled back, so no
partial writes are visible), the document is counted as an error, and the
loop continues with the remaining documents. -/
theorem failed_document_rolls_back_and_batch_continues
    (stats : Stats) (db : DB) (inp : IngestInput) (rest : List IngestInput)
    (herr : ingestFile db inp = .error ()) :
    ingestDirectoryFrom (stats, db) (inp :: rest) =
      ingestDirectoryFrom ({ stats with errors := stats.errors + 1 }, db) rest := by
  simp [ingestDirectoryFrom, ingestStep, herr]

/-- Witness for C4: a document whose patient `full_name` is a truthy
non-string raises inside the transaction; the batch records one error and an
unchanged database. -/
theorem failed_document_witness :
    ingestFile DB.empty badInp = .error () ∧
    ingestDirectoryFrom (⟨0, 0, 0⟩, DB.empty) [badInp] =
      ingestDirectoryFrom (⟨0, 0, 1⟩, DB.empty) [] := by
  have h : ingestFile DB.empty badInp = .error () := rfl
  exact ⟨h, failed_document_rolls_back_and_batch_continues ⟨0, 0, 0⟩ DB.empty badInp [] h⟩

/-! ### C9: fact file without a `pages` key -/

/-- **C9.**  A fact file that parses but has no `pages` key is skipped:
`_ingest_file` returns `False` without writing anything (the database is
returned unchanged), the directory loop counts it as skipped, and the batch
continues with the remaining files. -/
theorem no_pages_key_skips (db : DB) (inp : IngestInput) (data : DocData)
    (hjson : inp.json = some data) (hpages : data.pages = none) :
    ingestFile db inp = .ok (false, db) ∧
    ∀ (stats : Stats) (rest : List IngestInput),
      ingestDirectoryFrom (stats, db) (inp :: rest) =
        ingestDirectoryFrom ({ stats with skipped := stats.skipped + 1 }, db) rest := by
  have h1 : ingestFile db inp = .ok (false, db) := by
    simp only [ingestFile, hjson, hpages]
    split
    · rfl
    · rfl
  refine ⟨h1, fun stats rest => ?_⟩
  simp [ingestDirectoryFrom, ingestStep, h1]

/-- Witness for C9: the `pages`-less document is skipped with the database
unchanged. -/
theorem no_pages_key_witness :
    ingestFile DB.empty noPagesInp = .ok (false, DB.empty) :=
  (no_pages_key_skips DB.empty noPagesInp noPagesDoc rfl rfl).1

/-! ### Helper lemmas about `Except` binds and the update helpers -/

theorem except_bind_ok {α β : Type} (x : Except Unit α) (f : α → Except Unit β) (b : β) :
    (x >>= f) = .ok b ↔ ∃ a, x = .ok a ∧ f a = .ok b := by
  cases x <;> simp [Bind.bind, Except.bind]

theorem updIf_ok {cur newv r : Option JVal} (h : updIf cur newv = .ok r) :
    r = updOf cur newv := by
  cases newv with
  | none =>
    simpa [updIf, optNonEmptyStr, updOf, pure, Except.pure, Bind.bind,
      Except.bind] using h.symm
  | some v =>
    cases v with
    | s w =>
      by_cases hw : w = ""
      · simp [updIf, optNonEmptyStr, JVal.truthy, hw, updOf, pyStrip, pyStripL,
          pure, Except.pure, Bind.bind, Except.bind] at h ⊢
        exact h.symm
      · by_cases hs : pyStrip w = ""
        · simp [updIf, optNonEmptyStr, JVal.truthy, hw, JVal.asStr, hs, updOf,
            pure, Except.pure, Bind.bind, Except.bind] at h ⊢
          exact h.symm
        · simp [updIf, optNonEmptyStr, JVal.truthy, hw, JVal.asStr, hs, updOf,
            pure, Except.pure, Bind.bind, Except.bind] at h ⊢
          exact h.symm
    | num n =>
      by_cases hn : n = 0
      · simp [updIf, optNonEmptyStr, JVal.truthy, hn, updOf, pure, Except.pure,
          Bind.bind, Except.bind] at h ⊢
        exact h.symm
      · simp [updIf, optNonEmptyStr, JVal.truthy, hn, JVal.asStr,
          Bind.bind, Except.bind] at h

/-- Successful `updatePatientRow` characterized field by field. -/
theorem updatePatientRow_ok {p p' : PatientRow} {address : AddressJson}
    {phones : PhonesJson} {now : String}
    (h : updatePatientRow p address phones now = .ok p') :
    p' = { p with
      address_line_1 := updOf p.address_line_1 address.line_1,
      address_line_2 := updOf p.address_line_2 address.line_2,
      city := updOf p.city address.city,
      county := updOf p.county address.county,
      postcode := updOf p.postcode address.postcode,
      postcode_district := updOf p.postcode_district address.postcode_district,
      phone_home := updOf p.phone_home phones.home,
      phone_work := updOf p.phone_work phones.work,
      phone_mobile := updOf p.phone_mobile phones.mobile,
      document_count := p.document_count + 1,
      last_seen_at := now } := by
  unfold updatePatientRow at h
  rw [except_bind_ok] at h; obtain ⟨l1, h1, h⟩ := h
  rw [except_bind_ok] at h; obtain ⟨l2, h2, h⟩ := h
  rw [except_bind_ok] at h; obtain ⟨ci, h3, h⟩ := h
  rw [except_bind_ok] at h; obtain ⟨co, h4, h⟩ := h
  rw [except_bind_ok] at h; obtain ⟨pc, h5, h⟩ := h
  rw [except_bind_ok] at h; obtain ⟨pd, h6, h⟩ := h
  rw [except_bind_ok] at h; obtain ⟨hh, h7, h⟩ := h
  rw [except_bind_ok] at h; obtain ⟨ww, h8, h⟩ := h
  rw [except_bind_ok] at h; obtain ⟨mm, h9, h⟩ := h
  simp only [pure, Except.pure, Except.ok.injEq] at h
  rw [← h, updIf_ok h1, updIf_ok h2, updIf_ok h3, updIf_ok h4, updIf_ok h5,
    updIf_ok h6, updIf_ok h7, updIf_ok h8, updIf_ok h9]

/-- Successful `updatePractitionerRow` characterized field by field. -/
theorem updatePractitionerRow_ok {q q' : PractitionerRow}
    {pnm ad pc : Option JVal} {now : String}
    (h : updatePractitionerRow q pnm ad pc now = .ok q') :
    q' = { q with
      practice_name := updOf q.practice_name pnm,
      address := updOf q.address ad,
      postcode := updOf q.postcode pc,
      document_count := q.document_count + 1,
      last_seen_at := now } := by
  unfold updatePractitionerRow at h
  rw [except_bind_ok] at h; obtain ⟨a1, h1, h⟩ := h
  rw [except_bind_ok] at h; obtain ⟨a2, h2, h⟩ := h
  rw [except_bind_ok] at h; obtain ⟨a3, h3, h⟩ := h
  simp only [pure, Except.pure, Except.ok.injEq] at h
  rw [← h, updIf_ok h1, updIf_ok h2, updIf_ok h3]

/-! ### C1: update-on-match semantics of the entity resolvers -/

/-- **C1, counterexample.**  A matched patient's `address_line_1` already
holds `"1 Old Street"`; resolving a later document that supplies
`"2 New Street"` **overwrites** it — the stored value is not first-write-wins. -/
theorem patient_field_overwritten_cex :
    resolvePatient [wheatleyRow] 2 (.s "Patricia Wheatley") (some (.s "1960-01-01"))
        wheatleyAddr2 PhonesJson.empty "t1" = .ok (some 1, [wheatleyRow2], 2) ∧
    wheatleyRow.address_line_1 = some (.s "1 Old Street") ∧
    wheatleyRow2.address_line_1 = some (.s "2 New Street") ∧
    wheatleyRow2.address_line_1 ≠ wheatleyRow.address_line_1 := by
  exact ⟨rfl, rfl, rfl, by decide⟩

/-- **C1, amended.**  On a match, `_resolve_patient` and
`_resolve_practitioner` apply **last-write-wins** per field: every field for
which the new document supplies a non-empty string value is replaced
(whether or not it currently holds a value, per the `updOf` clauses below),
every other field is unchanged, `document_count` is incremented and
`last_seen_at` is bumped on every match. -/
theorem resolve_match_last_write_wins
    (patients : List PatientRow) (nextId : Nat) (fs : String) (dob : Option JVal)
    (address : AddressJson) (phones : PhonesJson) (now : String)
    (dobOpt : Option String) (p p' : PatientRow)
    (hnn : normalize_name fs ≠ "")
    (hdob : optNonEmptyStr dob = .ok dobOpt)
    (hfind : findPatientMatch patients (normalize_name fs) dobOpt = some p)
    (hupd : updatePatientRow p address phones now = .ok p') :
    resolvePatient patients nextId (.s fs) dob address phones now =
      .ok (some p.id, patients.map (fun q => if q.id = p.id then p' else q), nextId) ∧
    p'.address_line_1 = updOf p.address_line_1 address.line_1 ∧
    p'.address_line_2 = updOf p.address_line_2 address.line_2 ∧
    p'.city = updOf p.city address.city ∧
    p'.county = updOf p.county address.county ∧
    p'.postcode = updOf p.postcode address.postcode ∧
    p'.postcode_district = updOf p.postcode_district address.postcode_district ∧
    p'.phone_home = updOf p.phone_home phones.home ∧
    p'.phone_work = updOf p.phone_work phones.work ∧
    p'.phone_mobile = updOf p.phone_mobile phones.mobile ∧
    p'.document_count = p.document_count + 1 ∧
    p'.last_seen_at = now ∧
    p'.id = p.id ∧ p'.full_name = p.full_name ∧ p'.date_of_birth = p.date_of_birth ∧
    (∀ (cur : Option JVal) (v : String), pyStrip v ≠ "" →
      updOf cur (some (.s v)) = some (.s v)) ∧
    (∀ cur : Option JVal, updOf cur none = cur) ∧
    (∀ (practs : List PractitionerRow) (pnextId : Nat) (gs : String)
        (pnm ad pc : Option JVal) (ty pnow : String) (q q' : PractitionerRow),
      normalize_name gs ≠ "" →
      findPractitionerMatch practs (normalize_name gs) ty = some q →
      updatePractitionerRow q pnm ad pc pnow = .ok q' →
      resolvePractitioner practs pnextId (.s gs) pnm ad pc ty pnow =
        .ok (some q.id, practs.map (fun r => if r.id = q.id then q' else r), pnextId) ∧
      q'.practice_name = updOf q.practice_name pnm ∧
      q'.address = updOf q.address ad ∧
      q'.postcode = updOf q.postcode pc ∧
      q'.document_count = q.document_count + 1 ∧
      q'.last_seen_at = pnow) := by
  have hp := updatePatientRow_ok hupd
  refine ⟨?_, by rw [hp], by rw [hp], by rw [hp], by rw [hp], by rw [hp], by rw [hp],
    by rw [hp], by rw [hp], by rw [hp], by rw [hp], by rw [hp], by rw [hp],
    by rw [hp], by rw [hp],
    fun cur v hv => by simp [updOf, hv],
    fun cur => by simp [updOf],
    fun practs pnextId gs pnm ad pc ty pnow q q' hgnn hgfind hgupd => ?_⟩
  · unfold resolvePatient
    simp [JVal.asStr, Bind.bind, Except.bind, hnn, hdob, hfind, hupd, pure,
      Except.pure]
  · have hq := updatePractitionerRow_ok hgupd
    refine ⟨?_, by rw [hq], by rw [hq], by rw [hq], by rw [hq], by rw [hq]⟩
    unfold resolvePractitioner
    simp [JVal.asStr, Bind.bind, Except.bind, hgnn, hgfind, hgupd, pure, Except.pure]

/-- Witness for C1 (amended): the Wheatley scenario run through the
theorem. -/
theorem resolve_match_last_write_wins_witness :
    resolvePatient [wheatleyRow] 2 (.s "Patricia Wheatley") (some (.s "1960-01-01"))
        wheatleyAddr2 PhonesJson.empty "t1" =
      .ok (some wheatleyRow.id,
        [wheatleyRow].map (fun q => if q.id = wheatleyRow.id then wheatleyRow2 else q), 2) :=
  (resolve_match_last_write_wins [wheatleyRow] 2 "Patricia Wheatley"
    (some (.s "1960-01-01")) wheatleyAddr2 PhonesJson.empty "t1" (some "1960-01-01")
    wheatleyRow wheatleyRow2 (by decide) rfl (by decide) rfl).1

/-! ### C2: hash-gated idempotence -/

/-- After `upsertDocument`, the row for `stem` exists and carries `hash`. -/
theorem find_in_upsertDocument (stem hash : String) (sv ea : Option String)
    (pcn : Option Int) (now : String) : ∀ docs : List DocumentRow,
    ∃ r, (upsertDocument docs stem hash sv ea pcn now).find?
        (fun d => d.document_id = stem) = some r ∧ r.json_hash = hash := by
  intro docs
  induction docs with
  | nil =>
    exact ⟨⟨stem, hash, sv, ea, pcn, now, now⟩,
      by simp [upsertDocument, List.find?], rfl⟩
  | cons d t ih =>
    by_cases hd : d.document_id = stem
    · refine ⟨{ d with
          json_hash := hash, schema_version := sv, extracted_at := ea,
          page_count := pcn, updated_at := now }, ?_, rfl⟩
      simp [upsertDocument, List.any_cons, hd, List.find?]
    · have hcons : upsertDocument (d :: t) stem hash sv ea pcn now =
          d :: upsertDocument t stem hash sv ea pcn now := by
        by_cases ht : t.any (fun x => x.document_id = stem)
        · simp [upsertDocument, List.any_cons, hd, ht]
        · simp [upsertDocument, List.any_cons, hd, ht]
      obtain ⟨r, hr, hrh⟩ := ih
      refine ⟨r, ?_, hrh⟩
      rw [hcons, List.find?_cons]
      simp [hd, hr]

/-- A successful transaction stores the new hash in the document row. -/
theorem ingestCore_documents {db : DB} {stem hash : String} {data : DocData}
    {pages : List PageJson} {now : String} {db' : DB}
    (h : ingestCore db stem hash data pages now = .ok db') :
    db'.documents = upsertDocument db.documents stem hash data.schema_version
      data.extracted_at data.page_count now := by
  unfold ingestCore at h
  rcases hbom : buildOverrideMap data.overrides with e | omap <;>
    rw [hbom] at h <;>
    simp only [Bind.bind, Except.bind] at h
  · cases h
  · rcases hacc : pages.foldlM (processPage stem omap now) _ with e | acc <;>
      rw [hacc] at h
    · cases h
    · simp only [pure, Except.pure, Except.ok.injEq] at h
      rw [← h]

/-- **C2.**  Ingestion is hash-gated and idempotent: (1) when the stored
document hash equals the file's current content hash, `_ingest_file` returns
"skipped" with the store unchanged — no document row, entity counter,
timestamp or link table is touched; (2) consequently, immediately
re-ingesting a file whose ingestion just succeeded is such a skip: the
second run returns "skipped" and changes nothing. -/
theorem ingest_unchanged_hash_is_noop (db : DB) (inp : IngestInput) :
    (∀ r : DocumentRow,
      db.documents.find? (fun d => d.document_id = inp.stem) = some r →
      r.json_hash = inp.hash →
      ingestFile db inp = .ok (false, db)) ∧
    (∀ db' : DB, ingestFile db inp = .ok (true, db') →
      ingestFile db' inp = .ok (false, db')) := by
  have skipOf : ∀ (dbx : DB) (r : DocumentRow),
      dbx.documents.find? (fun d => d.document_id = inp.stem) = some r →
      r.json_hash = inp.hash → ingestFile dbx inp = .ok (false, dbx) := by
    intro dbx r hr hh
    unfold ingestFile
    rw [hr]
    simp [hh, pure, Except.pure]
  have okTrue : ∀ db'' : DB, ingestFile db inp = .ok (true, db'') →
      ∃ data pages, inp.json = some data ∧ data.pages = some pages ∧
        ingestCore db inp.stem inp.hash data pages inp.now = .ok db'' := by
    intro db'' h
    unfold ingestFile at h
    split at h
    · simp [pure, Except.pure] at h
    · split at h
      · simp at h
      · rename_i data hjson
        split at h
        · simp [pure, Except.pure] at h
        · rename_i pages hpages
          rcases hcore : ingestCore db inp.stem inp.hash data pages inp.now with e | dbx
          · rw [hcore] at h
            simp [Except.map] at h
          · rw [hcore] at h
            simp only [Except.map, Except.ok.injEq, Prod.mk.injEq] at h
            exact ⟨data, pages, hjson, hpages, by rw [hcore, h.2]⟩
  refine ⟨skipOf db, fun db' hsucc => ?_⟩
  obtain ⟨data, pages, hjson, hpages, hcore⟩ := okTrue db' hsucc
  have hdocs := ingestCore_documents hcore
  obtain ⟨r, hr, hrh⟩ := find_in_upsertDocument inp.stem inp.hash
    data.schema_version data.extracted_at data.page_count inp.now db.documents
  exact skipOf db' r (by rw [hdocs]; exact hr) hrh

/-- Witness for C2: ingesting the one-page "John Smith" file into an empty
store succeeds, and immediately re-ingesting the identical content is a
skip that changes nothing. -/
theorem ingest_unchanged_hash_witness :
    ingestFile ((ingestDirectory DB.empty [smithInp1]).2) smithInp1 =
      .ok (false, (ingestDirectory DB.empty [smithInp1]).2) :=
  (ingest_unchanged_hash_is_noop DB.empty smithInp1).2
    (ingestDirectory DB.empty [smithInp1]).2 rfl

/-! ### C5: override precedence by latest date -/

theorem strLtb_irrefl : ∀ as : List Char, strLtb as as = false := by
  intro as
  induction as with
  | nil => rfl
  | cons a t ih => simp [strLtb, ih]

theorem strLtb_trans : ∀ as bs cs : List Char,
    strLtb as bs = true → strLtb bs cs = true → strLtb as cs = true := by
  intro as
  induction as with
  | nil =>
    intro bs cs h1 h2
    cases bs with
    | nil => simp [strLtb] at h1
    | cons b bt =>
      cases cs with
      | nil => simp [strLtb] at h2
      | cons c ct => simp [strLtb]
  | cons a at' ih =>
    intro bs cs h1 h2
    cases bs with
    | nil => simp [strLtb] at h1
    | cons b bt =>
      cases cs with
      | nil => simp [strLtb] at h2
      | cons c ct =>
        simp only [strLtb] at h1 h2 ⊢
        split at h1
        · -- a < b
          rename_i hab
          split at h2
          · rename_i hbc
            rw [if_pos (by omega)]
          · split at h2
            · simp at h2
            · rename_i hba hcb
              have hbc : b.toNat = c.toNat := by omega
              rw [if_pos (by omega)]
        · split at h1
          · simp at h1
          · rename_i hab hba
            have heq : a.toNat = b.toNat := by omega
            split at h2
            · rename_i hbc
              rw [if_pos (by omega)]
            · split at h2
              · simp at h2
              · rename_i hbc hcb
                have heq2 : b.toNat = c.toNat := by omega
                rw [if_neg (by omega), if_neg (by omega)]
                exact ih bt ct h1 h2

theorem pyStrLt_irrefl (a : String) : pyStrLt a a = false := strLtb_irrefl a.data

theorem pyStrLt_trans {a b c : String} (h1 : pyStrLt a b = true)
    (h2 : pyStrLt b c = true) : pyStrLt a c = true :=
  strLtb_trans a.data b.data c.data h1 h2

/-- If `b < a` and not `b < o`, then not `a < o`. -/
theorem pyStrLt_not_lt_of_lt {a b o : String} (hba : pyStrLt b a = true)
    (hbo : pyStrLt b o = false) : pyStrLt a o = false := by
  by_contra h
  rw [Bool.not_eq_false] at h
  rw [pyStrLt_trans hba h] at hbo
  cases hbo

/-- Strict comparison is asymmetric. -/
theorem pyStrLt_asymm {a b : String} (h : pyStrLt a b = true) :
    pyStrLt b a = false := by
  by_contra hc
  rw [Bool.not_eq_false] at hc
  have := pyStrLt_trans h hc
  rw [pyStrLt_irrefl] at this
  cases this

theorem alookup_append_single {κ ν : Type} [DecidableEq κ]
    (m : List (κ × ν)) (k0 : κ) (v : ν) (k : κ) :
    alookup (m ++ [(k0, v)]) k =
      match alookup m k with
      | some x => some x
      | none => if k0 = k then some v else none := by
  induction m with
  | nil =>
    by_cases h : k0 = k <;> simp [alookup, List.find?, h]
  | cons e t ih =>
    by_cases he : e.1 = k
    · simp [alookup, List.find?, he]
    · simpa [alookup, List.find?, he] using ih

theorem alookup_map_replace {ν : Type} (m : List (OvKey × ν)) (kk : OvKey)
    (v : ν) (k : OvKey) :
    alookup (m.map (fun e => if e.1 = kk then (e.1, v) else e)) k =
      if k = kk then (alookup m k).map (fun _ => v) else alookup m k := by
  induction m with
  | nil => simp [alookup]
  | cons e t ih =>
    by_cases hek : e.1 = k
    · by_cases hkk : k = kk
      · simp [alookup, List.find?, hek, hkk] at ih ⊢
      · have hne : ¬ e.1 = kk := by rw [hek]; exact hkk
        simp [alookup, List.find?, hek, hkk, hne]
    · by_cases hekk : e.1 = kk
      · have h1 : ¬ kk = k := fun h => hek (hekk.trans h)
        simpa [alookup, List.find?, hek, hekk, h1] using ih
      · simpa [alookup, List.find?, hek, hekk] using ih

/-- Invariant of the override-map fold: every stored override is one of the
processed overrides for its key, and no processed override sharing its key
has a strictly later date; every processed key is covered. -/
theorem ovStep_fold_invariant :
    ∀ (os : List OverrideJson) (m0 : List (OvKey × OverrideJson))
      (processed : List OverrideJson) (m : List (OvKey × OverrideJson)),
    (∀ o ∈ os, ∃ d, odate o = JVal.s d) →
    (∀ o ∈ processed, ∃ d, odate o = JVal.s d) →
    (∀ k ov, alookup m0 k = some ov → ov ∈ processed ∧ ovKey ov = k ∧
      ∀ o ∈ processed, ovKey o = k → pyStrLt (dateStr ov) (dateStr o) = false) →
    (∀ o ∈ processed, (alookup m0 (ovKey o)).isSome) →
    os.foldlM ovStep m0 = .ok m →
    (∀ k ov, alookup m k = some ov → ov ∈ processed ++ os ∧ ovKey ov = k ∧
      ∀ o ∈ processed ++ os, ovKey o = k → pyStrLt (dateStr ov) (dateStr o) = false) ∧
    (∀ o ∈ processed ++ os, (alookup m (ovKey o)).isSome) := by
  intro os
  induction os with
  | nil =>
    intro m0 processed m _ _ hinv hcov hfold
    simp only [List.foldlM_nil, pure, Except.pure, Except.ok.injEq] at hfold
    subst hfold
    rw [List.append_nil]
    exact ⟨hinv, hcov⟩
  | cons ov t ih =>
    intro m0 processed m hdates hdatesP hinv hcov hfold
    rw [List.foldlM_cons, except_bind_ok] at hfold
    obtain ⟨m1, hstep, hfold⟩ := hfold
    obtain ⟨d1, hd1⟩ := hdates ov (List.mem_cons_self ov t)
    have hdatesT : ∀ o ∈ t, ∃ d, odate o = JVal.s d :=
      fun o ho => hdates o (List.mem_cons_of_mem ov ho)
    have hdatesP' : ∀ o ∈ processed ++ [ov], ∃ d, odate o = JVal.s d := by
      intro o ho
      rcases List.mem_append.mp ho with h | h
      · exact hdatesP o h
      · simp at h; subst h; exact ⟨d1, hd1⟩
    have hgoal : processed ++ ov :: t = (processed ++ [ov]) ++ t := by simp
    have hds1 : dateStr ov = d1 := by simp [dateStr, hd1]
    rcases hlk : alookup m0 (ovKey ov) with _ | ex
    · -- no stored override for this key yet: insert
      rw [ovStep, hlk] at hstep
      simp only [pure, Except.pure, Except.ok.injEq] at hstep
      subst hstep
      have hinv' : ∀ k ov', alookup (m0 ++ [(ovKey ov, ov)]) k = some ov' →
          ov' ∈ processed ++ [ov] ∧ ovKey ov' = k ∧
          ∀ o ∈ processed ++ [ov], ovKey o = k →
            pyStrLt (dateStr ov') (dateStr o) = false := by
        intro k ov' h
        rw [alookup_append_single] at h
        rcases hm0 : alookup m0 k with _ | x <;> rw [hm0] at h
        · by_cases hk : ovKey ov = k
          · simp only [hk, if_true, Option.some.injEq] at h
            subst h
            refine ⟨List.mem_append_right _ (by simp), hk, ?_⟩
            intro o ho hok
            rcases List.mem_append.mp ho with hp | hself
            · exact absurd (hcov o hp) (by rw [hok, ← hk, hlk]; simp)
            · simp at hself; subst hself; exact pyStrLt_irrefl _
          · simp [hk] at h
        · simp only [Option.some.injEq] at h
          rw [h] at hm0
          obtain ⟨hmem, hkey, hmax⟩ := hinv k ov' hm0
          refine ⟨List.mem_append_left _ hmem, hkey, ?_⟩
          intro o ho hok
          rcases List.mem_append.mp ho with hp | hself
          · exact hmax o hp hok
          · simp at hself; subst hself
            exact absurd hm0 (by rw [← hok, hlk]; simp)
      have hcov' : ∀ o ∈ processed ++ [ov],
          (alookup (m0 ++ [(ovKey ov, ov)]) (ovKey o)).isSome := by
        intro o ho
        rw [alookup_append_single]
        rcases List.mem_append.mp ho with hp | hself
        · rcases hm0 : alookup m0 (ovKey o) with _ | x
          · exact absurd (hcov o hp) (by rw [hm0]; simp)
          · simp
        · simp at hself; subst hself
          rw [hlk]; simp
      rw [hgoal]
      exact ih _ (processed ++ [ov]) m hdatesT hdatesP' hinv' hcov' hfold
    · -- a stored override exists: the later date wins, ties keep the first
      obtain ⟨hexmem, hexkey, hexmax⟩ := hinv (ovKey ov) ex hlk
      obtain ⟨d2, hd2⟩ := hdatesP ex hexmem
      have hds2 : dateStr ex = d2 := by simp [dateStr, hd2]
      rw [ovStep, hlk, except_bind_ok] at hstep
      obtain ⟨b, hb, hstep⟩ := hstep
      rw [hd1, hd2] at hb
      simp only [jGt, pure, Except.pure, Except.ok.injEq] at hb
      by_cases hlt : pyStrLt d2 d1 = true
      · rw [← hb, if_pos hlt] at hstep
        simp only [pure, Except.pure, Except.ok.injEq] at hstep
        subst hstep
        have hinv' : ∀ k ov',
            alookup (m0.map (fun e => if e.1 = ovKey ov then (e.1, ov) else e)) k
              = some ov' →
            ov' ∈ processed ++ [ov] ∧ ovKey ov' = k ∧
            ∀ o ∈ processed ++ [ov], ovKey o = k →
              pyStrLt (dateStr ov') (dateStr o) = false := by
          intro k ov' h
          rw [alookup_map_replace] at h
          by_cases hk : k = ovKey ov
          · rw [if_pos hk, hk, hlk] at h
            simp at h
            subst h
            refine ⟨List.mem_append_right _ (by simp), hk.symm, ?_⟩
            intro o ho hok
            rcases List.mem_append.mp ho with hp | hself
            · have hexo := hexmax o hp (by rw [hok, hk])
              rw [hds1]
              rw [hds2] at hexo
              exact pyStrLt_not_lt_of_lt hlt hexo
            · simp at hself; subst hself; exact pyStrLt_irrefl _
          · rw [if_neg hk] at h
            obtain ⟨hmem, hkey, hmax⟩ := hinv k ov' h
            refine ⟨List.mem_append_left _ hmem, hkey, ?_⟩
            intro o ho hok
            rcases List.mem_append.mp ho with hp | hself
            · exact hmax o hp hok
            · simp at hself; subst hself
              exact absurd hok (fun hc => hk (hc ▸ rfl))
        have hcov' : ∀ o ∈ processed ++ [ov],
            (alookup (m0.map (fun e => if e.1 = ovKey ov then (e.1, ov) else e))
              (ovKey o)).isSome := by
          intro o ho
          rw [alookup_map_replace]
          by_cases hk : ovKey o = ovKey ov
          · rw [if_pos hk, hk, hlk]; simp
          · rw [if_neg hk]
            rcases List.mem_append.mp ho with hp | hself
            · exact hcov o hp
            · simp at hself; subst hself; exact absurd rfl hk
        rw [hgoal]
        exact ih _ (processed ++ [ov]) m hdatesT hdatesP' hinv' hcov' hfold
      · rw [← hb, if_neg hlt] at hstep
        simp only [pure, Except.pure, Except.ok.injEq] at hstep
        subst hstep
        rw [Bool.not_eq_true] at hlt
        have hinv' : ∀ k ov', alookup m0 k = some ov' →
            ov' ∈ processed ++ [ov] ∧ ovKey ov' = k ∧
            ∀ o ∈ processed ++ [ov], ovKey o = k →
              pyStrLt (dateStr ov') (dateStr o) = false := by
          intro k ov' h
          obtain ⟨hmem, hkey, hmax⟩ := hinv k ov' h
          refine ⟨List.mem_append_left _ hmem, hkey, ?_⟩
          intro o ho hok
          rcases List.mem_append.mp ho with hp | hself
          · exact hmax o hp hok
          · simp at hself; subst hself
            have hveq : ov' = ex := by
              rw [← hok] at h
              rw [hlk] at h
              exact ((Option.some.injEq _ _).mp h).symm
            rw [hveq, hds1, hds2]
            exact hlt
        have hcov' : ∀ o ∈ processed ++ [ov], (alookup m0 (ovKey o)).isSome := by
          intro o ho
          rcases List.mem_append.mp ho with hp | hself
          · exact hcov o hp
          · simp at hself; subst hself; rw [hlk]; simp
        rw [hgoal]
        exact ih _ (processed ++ [ov]) m hdatesT hdatesP' hinv' hcov' hfold

/-- **C5.**  Among a document's overrides sharing a
`(page_number, match_address_type)` key (all carrying string dates), the
override the built map stores for that key is one of them, and no override
with that key has a lexicographically later `override_date` (so with the
distinct dates "2024-01-01" and "2024-06-01" the June override is the one
applied); per-page application looks up exactly that map entry by the
page's `(page_number, address_type)`. -/
theorem override_latest_date_wins (os : List OverrideJson)
    (m : List (OvKey × OverrideJson)) (k : OvKey) (ov : OverrideJson)
    (hdates : ∀ o ∈ os, ∃ d, odate o = JVal.s d)
    (hm : buildOverrideMap os = .ok m)
    (hget : alookup m k = some ov) :
    ov ∈ os ∧ ovKey ov = k ∧
    (∀ o ∈ os, ovKey o = k → pyStrLt (dateStr ov) (dateStr o) = false) ∧
    (∀ page : PageJson, (effectivePage m page).override =
      alookup m (page.page_number, some (page.address_type.getD "patient"))) := by
  have h := ovStep_fold_invariant os [] [] m hdates (by simp)
    (by intro k ov h; simp [alookup] at h) (by simp) hm
  obtain ⟨hmem, hkey, hmax⟩ := h.1 k ov hget
  exact ⟨by simpa using hmem, hkey,
    fun o ho hok => hmax o (by simpa using ho) hok, fun page => rfl⟩

/-- Witness for C5: with override dates "2024-01-01" and "2024-06-01" for
the same `(page 1, "patient")` key, the June override is the stored one and
the January override's date is not later. -/
theorem override_latest_date_wins_witness :
    ovJun ∈ [ovJan, ovJun] ∧ ovKey ovJun = ((some 1 : Option Int), some "patient") ∧
    pyStrLt (dateStr ovJun) (dateStr ovJan) = false := by
  have hdates : ∀ o ∈ [ovJan, ovJun], ∃ d, odate o = JVal.s d := by
    intro o ho
    rcases List.mem_cons.mp ho with h | h
    · exact ⟨"2024-01-01", by rw [h]; rfl⟩
    · simp at h
      exact ⟨"2024-06-01", by rw [h]; rfl⟩
  have h := override_latest_date_wins [ovJan, ovJun] ovMapJune
    ((some 1 : Option Int), some "patient") ovJun hdates rfl rfl
  exact ⟨h.1, h.2.1, h.2.2.1 ovJan (by simp) rfl⟩


/-! ### C6: cross-row linking -/

theorem linkMatches_eq {l : PPLink} {t t' : Nat × Nat × String}
    (h1 : linkMatches l t = true) (h2 : linkMatches l t' = true) : t = t' := by
  rcases t with ⟨x1, y1, z1⟩
  rcases t' with ⟨x2, y2, z2⟩
  simp [linkMatches] at h1 h2
  simp_all

theorem find?_append_of_none {α : Type} (p : α → Bool) (l1 l2 : List α)
    (h : l1.find? p = none) : (l1 ++ l2).find? p = l2.find? p := by
  induction l1 with
  | nil => simp
  | cons x t ih =>
    rw [List.find?_cons] at h
    rcases hx : p x with _ | _ <;> rw [hx] at h
    · simpa [List.find?, hx] using ih h
    · cases h

theorem find?_append_of_some {α : Type} (p : α → Bool) (l1 l2 : List α) (x : α)
    (h : l1.find? p = some x) : (l1 ++ l2).find? p = some x := by
  induction l1 with
  | nil => simp at h
  | cons y t ih =>
    rw [List.find?_cons] at h
    rcases hy : p y with _ | _ <;> rw [hy] at h
    · simp only [Bool.false_eq_true] at h
      simp only [List.cons_append, List.find?_cons, hy, Bool.false_eq_true]
      exact ih h
    · simpa [List.find?, hy] using h

theorem find?_map_bump_ne (now : String) (t t' : Nat × Nat × String) (h : t' ≠ t) :
    ∀ links : List PPLink,
    (links.map (fun l => if linkMatches l t then linkBump now l else l)).find?
        (fun l => linkMatches l t') = links.find? (fun l => linkMatches l t') := by
  intro links
  induction links with
  | nil => simp
  | cons l ls ih =>
    rcases hl : linkMatches l t with _ | _
    · rcases hlt' : linkMatches l t' with _ | _
      · simp only [List.map_cons, hl, Bool.false_eq_true, if_false, List.find?_cons,
          hlt']
        exact ih
      · simp [List.find?, hl, hlt']
    · have hlt' : linkMatches l t' = false := by
        rcases hc : linkMatches l t' with _ | _
        · rfl
        · exact absurd (linkMatches_eq hc hl) h
      have hbump : linkMatches (linkBump now l) t' = false := hlt'
      simp only [List.map_cons, hl, if_true, List.find?_cons, hbump, hlt',
        Bool.false_eq_true]
      exact ih

theorem find?_map_bump_self (now : String) (t : Nat × Nat × String) :
    ∀ links : List PPLink, links.any (fun l => linkMatches l t) = true →
    ∃ l, links.find? (fun l => linkMatches l t) = some l ∧
      (links.map (fun l => if linkMatches l t then linkBump now l else l)).find?
        (fun l => linkMatches l t) = some (linkBump now l) := by
  intro links hany
  induction links with
  | nil => simp at hany
  | cons l ls ih =>
    rcases hl : linkMatches l t with _ | _
    · rw [List.any_cons, hl, Bool.false_or] at hany
      obtain ⟨l0, h1, h2⟩ := ih hany
      refine ⟨l0, ?_, ?_⟩
      · simp only [List.find?_cons, hl, Bool.false_eq_true]
        exact h1
      · simp only [List.map_cons, hl, Bool.false_eq_true, if_false,
          List.find?_cons]
        exact h2
    · have hbump : linkMatches (linkBump now l) t = true := hl
      exact ⟨l, by simp [List.find?, hl], by simp [List.find?, hl, hbump]⟩

/-- The link upsert increments exactly the upserted triple\'s count by one. -/
theorem linkCount_linkOne (links : List PPLink) (t t' : Nat × Nat × String)
    (now : String) :
    linkCount (linkOne links t now) t' =
      if t' = t then linkCount links t' + 1 else linkCount links t' := by
  unfold linkOne
  rcases hany : links.any (fun l => linkMatches l t) with _ | _
  · rw [if_neg (by simp)]
    have hnone : links.find? (fun l => linkMatches l t) = none := by
      rcases hf : links.find? (fun l => linkMatches l t) with _ | l0
      · rfl
      · have hp : linkMatches l0 t = true := by simpa using List.find?_some hf
        have hc : links.any (fun l => linkMatches l t) = true :=
          List.any_eq_true.mpr ⟨l0, List.mem_of_find?_eq_some hf, hp⟩
        rw [hany] at hc
        cases hc
    by_cases ht : t' = t
    · subst ht
      have hnew : linkMatches ⟨t'.1, t'.2.1, t'.2.2, 1, now, now⟩ t' = true := by
        simp [linkMatches]
      rw [if_pos rfl, linkCount, linkCount,
        find?_append_of_none _ _ _ hnone, hnone]
      simp [List.find?, hnew]
    · rw [if_neg ht]
      have hnew : linkMatches ⟨t.1, t.2.1, t.2.2, 1, now, now⟩ t' = false := by
        rcases hc : linkMatches ⟨t.1, t.2.1, t.2.2, 1, now, now⟩ t' with _ | _
        · rfl
        · have hmt : linkMatches (⟨t.1, t.2.1, t.2.2, 1, now, now⟩ : PPLink) t
              = true := by simp [linkMatches]
          exact absurd (linkMatches_eq hc hmt) ht
      rcases hf : links.find? (fun l => linkMatches l t') with _ | l0
      · rw [linkCount, linkCount, find?_append_of_none _ _ _ hf, hf]
        simp [List.find?, hnew]
      · rw [linkCount, linkCount, find?_append_of_some _ _ _ _ hf, hf]
  · rw [if_pos rfl]
    by_cases ht : t' = t
    · subst ht
      obtain ⟨l, h1, h2⟩ := find?_map_bump_self now t' links hany
      rw [if_pos rfl, linkCount, linkCount, h2, h1]
      rfl
    · rw [if_neg ht, linkCount, linkCount, find?_map_bump_ne now t t' ht links]

/-- The guarded linking fold: the final seen set is the union, and each
triple's link count grows by one exactly when the triple was newly seen. -/
theorem linkFold_spec (now : String) :
    ∀ (ts : List (Nat × Nat × String)) (seen : List (Nat × Nat × String))
      (links : List PPLink),
    (∀ t', t' ∈ (ts.foldl (linkStep now) (seen, links)).1 ↔ t' ∈ seen ∨ t' ∈ ts) ∧
    (∀ t', linkCount ((ts.foldl (linkStep now) (seen, links)).2) t' =
      linkCount links t' +
        (if t' ∈ (ts.foldl (linkStep now) (seen, links)).1 ∧ t' ∉ seen then 1
         else 0)) := by
  intro ts
  induction ts with
  | nil =>
    intro seen links
    constructor
    · intro t'; simp
    · intro t'
      simp only [List.foldl_nil]
      rw [if_neg (fun hc => hc.2 hc.1)]
      rfl
  | cons t ts ih =>
    intro seen links
    rw [List.foldl_cons]
    by_cases ht : t ∈ seen
    · rw [linkStep, if_pos ht]
      obtain ⟨ihm, ihc⟩ := ih seen links
      constructor
      · intro t'
        rw [ihm t']
        constructor
        · rintro (h | h)
          · exact Or.inl h
          · exact Or.inr (List.mem_cons_of_mem t h)
        · rintro (h | h)
          · exact Or.inl h
          · rcases List.mem_cons.mp h with rfl | h2
            · exact Or.inl ht
            · exact Or.inr h2
      · exact ihc
    · rw [linkStep, if_neg ht]
      obtain ⟨ihm, ihc⟩ := ih (seen ++ [t]) (linkOne links t now)
      constructor
      · intro t'
        rw [ihm t']
        simp only [List.mem_append, List.mem_singleton, List.mem_cons]
        tauto
      · intro t'
        rw [ihc t', linkCount_linkOne]
        by_cases ht' : t' = t
        · subst ht'
          rw [if_pos rfl]
          rw [if_neg (fun hc => hc.2 (List.mem_append_right _ (by simp)))]
          rw [if_pos ⟨(ihm t').mpr (Or.inl (List.mem_append_right _ (by simp))), ht⟩]
        · rw [if_neg ht']
          have hseen : (t' ∈ seen ++ [t]) ↔ t' ∈ seen := by
            simp [List.mem_append, ht']
          by_cases hin : t' ∈ (ts.foldl (linkStep now) (seen ++ [t], linkOne links t now)).1 ∧ t' ∉ seen
          · rw [if_pos ⟨hin.1, fun hc => hin.2 (hseen.mp hc)⟩, if_pos hin]
          · rw [if_neg (fun hc => hin ⟨hc.1, fun hc2 => hc.2 (hseen.mpr hc2)⟩),
              if_neg hin]

/-- **C6.**  In one document's linking phase: (1) every
(patient, practitioner, relationship) triple's link `document_count` grows
by at most one, no matter how many pages justify it; (2) if the document
resolved exactly one distinct patient, that patient's link to every
(practitioner, relationship) pair seen anywhere in the document is
incremented exactly once — including pairs from pages the patient did not
appear on. -/
theorem sole_patient_linked_once (links : List PPLink)
    (pagePat : List (Option Int × List Nat))
    (pagePrac : List (Option Int × List (Nat × String)))
    (seenPat : List Nat) (seenPrac : List (Nat × String)) (now : String) :
    (∀ t, linkCount (linkPhase links pagePat pagePrac seenPat seenPrac now) t ≤
      linkCount links t + 1) ∧
    (∀ p, seenPat = [p] → ∀ pr ∈ seenPrac,
      linkCount (linkPhase links pagePat pagePrac seenPat seenPrac now)
          (p, pr.1, pr.2) =
        linkCount links (p, pr.1, pr.2) + 1) := by
  obtain ⟨hm, hc⟩ := linkFold_spec now
    (strategy1Pairs pagePat pagePrac ++ strategy2Pairs seenPat seenPrac) [] links
  constructor
  · intro t
    rw [linkPhase, hc t]
    split
    · exact le_refl _
    · exact Nat.le_succ _
  · intro p hp pr hpr
    rw [linkPhase, hc (p, pr.1, pr.2)]
    have hmem : (p, pr.1, pr.2) ∈
        strategy1Pairs pagePat pagePrac ++ strategy2Pairs seenPat seenPrac := by
      apply List.mem_append_right
      rw [hp, strategy2Pairs]
      exact List.mem_map.mpr ⟨pr, hpr, rfl⟩
    rw [if_pos ⟨(hm _).mpr (Or.inr hmem), by simp⟩]

/-- Witness for C6: one sole patient (id 7) and one practitioner pair
(id 3, "GP") on a page the patient does not share; the link count goes from
0 to 1. -/
theorem sole_patient_linked_once_witness :
    linkCount (linkPhase [] [] [(some 2, [(3, "GP")])] [7] [(3, "GP")] "t0")
        (7, 3, "GP") = linkCount [] (7, 3, "GP") + 1 :=
  (sole_patient_linked_once [] [] [(some 2, [(3, "GP")])] [7] [(3, "GP")] "t0").2
    7 rfl (3, "GP") (by simp)



/-! ### C10: fuzzy_match_score is bounded in [0, 1] -/

theorem cplen_le_left : ∀ a b : List Char, cplen a b ≤ a.length := by
  intro a
  induction a with
  | nil => intro b; cases b <;> simp [cplen]
  | cons x xs ih =>
    intro b
    cases b with
    | nil => simp [cplen]
    | cons y ys =>
      rw [cplen]
      split
      · exact Nat.succ_le_succ (ih ys)
      · simp

theorem cplen_le_right : ∀ a b : List Char, cplen a b ≤ b.length := by
  intro a
  induction a with
  | nil => intro b; cases b <;> simp [cplen]
  | cons x xs ih =>
    intro b
    cases b with
    | nil => simp [cplen]
    | cons y ys =>
      rw [cplen]
      split
      · exact Nat.succ_le_succ (ih ys)
      · simp

theorem foldl_pick_mem :
    ∀ (l : List (Nat × Nat × Nat)) (init : Nat × Nat × Nat),
    l.foldl (fun best c => if best.2.2 < c.2.2 then c else best) init = init ∨
    l.foldl (fun best c => if best.2.2 < c.2.2 then c else best) init ∈ l := by
  intro l
  induction l with
  | nil => intro init; exact Or.inl rfl
  | cons x t ih =>
    intro init
    rw [List.foldl_cons]
    rcases ih (if init.2.2 < x.2.2 then x else init) with h | h
    · rw [h]
      by_cases hc : init.2.2 < x.2.2
      · rw [if_pos hc]; exact Or.inr (List.mem_cons_self x t)
      · rw [if_neg hc]; exact Or.inl rfl
    · exact Or.inr (List.mem_cons_of_mem x h)

theorem mem_lbCandidates {a b : List Char} {c : Nat × Nat × Nat}
    (h : c ∈ lbCandidates a b) : c.2.2 = cplen (a.drop c.1) (b.drop c.2.1) := by
  rw [lbCandidates, List.mem_flatMap] at h
  obtain ⟨i, _, hi⟩ := h
  rw [List.mem_map] at hi
  obtain ⟨j, _, hj⟩ := hi
  rw [← hj]

theorem longestBlock_block {a b : List Char} :
    (longestBlock a b).2.2 =
      cplen (a.drop (longestBlock a b).1) (b.drop (longestBlock a b).2.1) ∨
    longestBlock a b = (0, 0, 0) := by
  rcases foldl_pick_mem (lbCandidates a b) (0, 0, 0) with h | h
  · exact Or.inr h
  · exact Or.inl (mem_lbCandidates h)

theorem matchTotal_le : ∀ (fuel : Nat) (a b : List Char),
    matchTotal fuel a b ≤ min a.length b.length := by
  intro fuel
  induction fuel with
  | zero => intro a b; simp [matchTotal]
  | succ fuel ih =>
    intro a b
    rw [matchTotal]
    rcases hlb : longestBlock a b with ⟨i, j, k⟩
    simp only []
    by_cases hk : k = 0
    · simp [hk]
    · rw [if_neg hk]
      have hkc : k = cplen (a.drop i) (b.drop j) := by
        rcases longestBlock_block (a := a) (b := b) with h | h
        · rw [hlb] at h; exact h
        · rw [hlb] at h
          exact absurd (congrArg (fun p => p.2.2) h) (by simpa using hk)
      have hka : k ≤ a.length - i := by
        rw [hkc]
        simpa using cplen_le_left (a.drop i) (b.drop j)
      have hkb : k ≤ b.length - j := by
        rw [hkc]
        simpa using cplen_le_right (a.drop i) (b.drop j)
      have hl := ih (a.take i) (b.take j)
      have hr := ih (a.drop (i + k)) (b.drop (j + k))
      simp only [List.length_take, List.length_drop] at hl hr
      omega

theorem smRatio_nonneg (a b : List Char) : 0 ≤ smRatio a b := by
  rw [smRatio]
  split
  · norm_num
  · positivity

theorem smRatio_le_one (a b : List Char) : smRatio a b ≤ 1 := by
  rw [smRatio]
  split
  · norm_num
  · rename_i hT
    have hM : matchTotal (a.length + 1) a b ≤ min a.length b.length :=
      matchTotal_le _ a b
    have h2 : 2 * (matchTotal (a.length + 1) a b : ℚ) ≤ ((a.length + b.length : Nat) : ℚ) := by
      have : 2 * matchTotal (a.length + 1) a b ≤ a.length + b.length := by omega
      exact_mod_cast this
    have hpos : (0 : ℚ) < ((a.length + b.length : Nat) : ℚ) := by
      have : 0 < a.length + b.length := Nat.pos_of_ne_zero hT
      exact_mod_cast this
    rw [div_le_one hpos]
    exact h2

/-- **C10.**  `fuzzy_match_score` always returns a value in `[0, 1]`: each
branch yields `1`, `0.8`, `0.7`, `0.5 × (overlap ratio ≤ 1)`, or the
`SequenceMatcher` ratio (itself in `[0, 1]`) times `0.6`. -/
theorem fuzzy_match_score_bounded (query target : String) :
    0 ≤ fuzzy_match_score query target ∧ fuzzy_match_score query target ≤ 1 := by
  rw [fuzzy_match_score]
  split
  · norm_num
  · dsimp only
    split
    · norm_num
    · split
      · norm_num
      · split
        · norm_num
        · split
          · rename_i hq ht hsub hcom
            set qu := pyStripL (pyUpper query).data with hqu
            set tu := pyStripL (pyUpper target).data with htu
            set qws := (wordsOf qu).eraseDups with hqws
            set tws := wordsOf tu with htws
            set cws := qws.filter (fun w => tws.contains w) with hcws
            have hle : cws.length ≤ qws.length := List.length_filter_le _ _
            have hqpos : 0 < qws.length := by
              rcases hqe : qws with _ | ⟨w, ws⟩
              · rw [hqe] at hcws
                simp [hcws] at hcom
              · simp
            have hfrac0 : (0 : ℚ) ≤ (cws.length : ℚ) / (qws.length : ℚ) := by
              positivity
            have hfrac1 : (cws.length : ℚ) / (qws.length : ℚ) ≤ 1 := by
              rw [div_le_one (by exact_mod_cast hqpos)]
              exact_mod_cast hle
            constructor
            · positivity
            · nlinarith
          · constructor
            · have := smRatio_nonneg (pyStripL (pyUpper query).data)
                (pyStripL (pyUpper target).data)
              nlinarith
            · have := smRatio_le_one (pyStripL (pyUpper query).data)
                (pyStripL (pyUpper target).data)
              have h0 := smRatio_nonneg (pyStripL (pyUpper query).data)
                (pyStripL (pyUpper target).data)
              nlinarith



/-! ### C8: a postcode hint never lowers the winning score -/

theorem mem_strategy1 {db : List PracticeRow} {d : String} {r : PracticeRow}
    (h : r ∈ strategy1 db d) : r ∈ db :=
  List.mem_of_mem_filter h

theorem mem_strategy2 {db : List PracticeRow} {ph : String} {r : PracticeRow}
    (h : r ∈ strategy2 db ph) : r ∈ db := by
  rw [strategy2, List.mem_flatMap] at h
  obtain ⟨w, _, hw⟩ := h
  split at hw
  · exact List.mem_of_mem_filter (List.mem_of_mem_take hw)
  · cases hw

theorem mem_strategy3 {db : List PracticeRow} {ah : String} {r : PracticeRow}
    (h : r ∈ strategy3 db ah) : r ∈ db := by
  rw [strategy3, List.mem_flatMap] at h
  obtain ⟨w, _, hw⟩ := h
  split at hw
  · exact List.mem_of_mem_filter (List.mem_of_mem_take hw)
  · cases hw

theorem mem_searchCandidates {db : List PracticeRow}
    {ph ah : Option String} {dist : Option String} {r : PracticeRow}
    (h : r ∈ searchCandidates db ph ah dist) : r ∈ db := by
  unfold searchCandidates at h
  rcases List.mem_append.mp h with h | h
  · rcases List.mem_append.mp h with h | h
    · rcases dist with _ | d
      · simp at h
      · dsimp only at h
        exact mem_strategy1 h
    · rcases ph with _ | p
      · simp at h
      · dsimp only at h
        by_cases hp : p ≠ ""
        · rw [if_pos hp] at h
          exact mem_strategy2 h
        · rw [if_neg hp] at h
          simp at h
  · rcases ah with _ | a
    · simp at h
    · dsimp only at h
      by_cases ha : a ≠ ""
      · rw [if_pos ha] at h
        exact mem_strategy3 h
      · rw [if_neg ha] at h
        simp at h

theorem dedupByOds_go_subset :
    ∀ (l : List PracticeRow) (seen : List String) (r : PracticeRow),
    r ∈ dedupByOds.go seen l → r ∈ l := by
  intro l
  induction l with
  | nil => intro seen r h; cases h
  | cons x t ih =>
    intro seen r h
    rw [dedupByOds.go] at h
    split at h
    · exact List.mem_cons_of_mem x (ih seen r h)
    · rcases List.mem_cons.mp h with rfl | h2
      · exact List.mem_cons_self _ _
      · exact List.mem_cons_of_mem x (ih _ r h2)

theorem dedupByOds_subset {l : List PracticeRow} {r : PracticeRow}
    (h : r ∈ dedupByOds l) : r ∈ l :=
  dedupByOds_go_subset l [] r h

theorem dedupByOds_go_cover :
    ∀ (l : List PracticeRow) (seen : List String) (r : PracticeRow),
    r ∈ l → r.ods_code ∉ seen →
    ∃ r' ∈ dedupByOds.go seen l, r'.ods_code = r.ods_code := by
  intro l
  induction l with
  | nil => intro seen r h; cases h
  | cons x t ih =>
    intro seen r hmem hseen
    rw [dedupByOds.go]
    rcases List.mem_cons.mp hmem with rfl | h2
    · rw [if_neg hseen]
      exact ⟨r, List.mem_cons_self _ _, rfl⟩
    · by_cases hx : x.ods_code ∈ seen
      · rw [if_pos hx]
        exact ih seen r h2 hseen
      · rw [if_neg hx]
        by_cases hxr : r.ods_code = x.ods_code
        · exact ⟨x, List.mem_cons_self _ _, hxr.symm⟩
        · have hs2 : r.ods_code ∉ x.ods_code :: seen := by
            intro hc
            rcases List.mem_cons.mp hc with hc1 | hc2
            · exact hxr hc1
            · exact hseen hc2
          obtain ⟨r', hr', he⟩ := ih (x.ods_code :: seen) r h2 hs2
          exact ⟨r', List.mem_cons_of_mem x hr', he⟩

/-- With registry-unique `ods_code`s, deduplication keeps every candidate
that appears in the list. -/
theorem mem_dedupByOds_of_inj {db l : List PracticeRow} {r : PracticeRow}
    (hinj : ∀ r1 ∈ db, ∀ r2 ∈ db, r1.ods_code = r2.ods_code → r1 = r2)
    (hsub : ∀ x ∈ l, x ∈ db) (h : r ∈ l) : r ∈ dedupByOds l := by
  obtain ⟨r', hr', he⟩ := dedupByOds_go_cover l [] r h (by simp)
  have : r' = r :=
    hinj r' (hsub r' (dedupByOds_subset hr')) r (hsub r h) he
  rw [← this]
  exact hr'

theorem insertDesc_ne_nil (x : SearchResult) (l : List SearchResult) :
    insertDesc x l ≠ [] := by
  cases l with
  | nil => simp [insertDesc]
  | cons y t =>
    rw [insertDesc]
    split <;> simp

theorem mem_insertDesc {x z : SearchResult} :
    ∀ {l : List SearchResult}, z ∈ insertDesc x l ↔ z = x ∨ z ∈ l := by
  intro l
  induction l with
  | nil => simp [insertDesc]
  | cons y t ih =>
    rw [insertDesc]
    split
    · simp
    · rw [List.mem_cons, ih, List.mem_cons]
      tauto

theorem mem_sortDesc {z : SearchResult} :
    ∀ {l : List SearchResult}, z ∈ sortDesc l ↔ z ∈ l := by
  intro l
  induction l with
  | nil => simp [sortDesc]
  | cons y t ih =>
    rw [sortDesc, List.foldr_cons]
    rw [mem_insertDesc]
    rw [show t.foldr insertDesc [] = sortDesc t from rfl, ih, List.mem_cons]

theorem sortDesc_ne_nil {l : List SearchResult} (h : l ≠ []) :
    sortDesc l ≠ [] := by
  cases l with
  | nil => exact absurd rfl h
  | cons y t => exact insertDesc_ne_nil y (sortDesc t)

theorem self_le_headScore_insertDesc (x : SearchResult) (l : List SearchResult) :
    x.score ≤ headScore (insertDesc x l) := by
  cases l with
  | nil => simp [insertDesc, headScore]
  | cons y t =>
    rw [insertDesc]
    split
    · simp [headScore]
    · rename_i hc
      rw [headScore]
      exact le_of_lt (lt_of_not_le hc)

theorem headScore_le_insertDesc (x y : SearchResult) (t : List SearchResult) :
    headScore (y :: t) ≤ headScore (insertDesc x (y :: t)) := by
  rw [insertDesc]
  split
  · rename_i hc
    simpa [headScore] using hc
  · simp [headScore]

theorem le_headScore_sortDesc {z : SearchResult} :
    ∀ {l : List SearchResult}, z ∈ l → z.score ≤ headScore (sortDesc l) := by
  intro l
  induction l with
  | nil => intro h; cases h
  | cons y t ih =>
    intro h
    have hfold : sortDesc (y :: t) = insertDesc y (sortDesc t) := rfl
    rcases List.mem_cons.mp h with rfl | h2
    · rw [hfold]
      exact self_le_headScore_insertDesc z (sortDesc t)
    · have h1 := ih h2
      have hne : sortDesc t ≠ [] := by
        intro hc
        rw [hc] at h1
        have : z ∈ sortDesc t := mem_sortDesc.mpr h2
        rw [hc] at this
        cases this
      rcases hst : sortDesc t with _ | ⟨w, ws⟩
      · exact absurd hst hne
      · rw [hfold, hst]
        rw [hst] at h1
        exact le_trans h1 (headScore_le_insertDesc y w ws)

theorem headScore_take {l : List SearchResult} {limit : Nat} (h : 1 ≤ limit) :
    headScore (l.take limit) = headScore l := by
  cases l with
  | nil => simp
  | cons y t =>
    cases limit with
    | zero => omega
    | succ n => simp [headScore]

theorem proximityTerm_nonneg (pp : Option String) (r : PracticeRow) :
    0 ≤ proximityTerm pp r := by
  rcases pp with _ | pc
  · exact le_refl _
  · simp only [proximityTerm]
    split
    · have h1 : (0 : ℤ) ≤ max 0 (10 - (postcode_distance pc r.postcode : ℤ)) :=
        le_max_left _ _
      have h2 : (0 : ℚ) ≤ ((max 0 (10 - (postcode_distance pc r.postcode : ℤ)) : ℤ) : ℚ) := by
        exact_mod_cast h1
      positivity
    · exact le_refl _

theorem scoreOf_none_le_some (ph ah : Option String) (pc : String)
    (r : PracticeRow) : scoreOf ph ah none r ≤ scoreOf ph ah (some pc) r := by
  rw [scoreOf, scoreOf]
  have h1 : proximityTerm none r = 0 := rfl
  have h2 := proximityTerm_nonneg (some pc) r
  rw [h1]
  linarith

theorem searchCandidates_some_eq (db : List PracticeRow)
    (ph ah : Option String) (d : String) :
    searchCandidates db ph ah (some d) =
      strategy1 db d ++ searchCandidates db ph ah none := by
  unfold searchCandidates
  simp [List.append_assoc]

/-- **C8.**  For a fixed registry with unique `ods_code`s (its primary key)
and an otherwise-identical query that already returns at least one result,
adding a postal-code hint never decreases the top-ranked result\'s score:
the postcode term `max(0, 10 - distance)/10 × 20 ≥ 0` is added to every
candidate\'s score and strategy 1 only enlarges the candidate set.  (In
particular this holds for a correct hint, one whose district matches the
true candidate.) -/
theorem search_postcode_hint_monotone (db : List PracticeRow)
    (practice_hint address_hint : Option String) (pc : String) (limit : Nat)
    (hinj : ∀ r1 ∈ db, ∀ r2 ∈ db, r1.ods_code = r2.ods_code → r1 = r2)
    (hlim : 1 ≤ limit) (rs rs' : List SearchResult)
    (h0 : search db practice_hint address_hint none limit = .ok rs)
    (h1 : search db practice_hint address_hint (some pc) limit = .ok rs')
    (hne : rs ≠ []) :
    rs' ≠ [] ∧ headScore rs ≤ headScore rs' := by
  have e0 : search db practice_hint address_hint none limit =
      .ok (((sortDesc ((dedupByOds
        (searchCandidates db practice_hint address_hint none)).map
        (mkResult practice_hint address_hint none)))).take limit) := rfl
  rw [e0, Except.ok.injEq] at h0
  by_cases hpc : pc = ""
  · subst hpc
    have hmk : mkResult practice_hint address_hint (some "") =
        mkResult practice_hint address_hint none := by
      funext r
      rw [mkResult, mkResult, scoreOf, scoreOf, proximityTerm, proximityTerm]
      simp
    have e1 : search db practice_hint address_hint (some "") limit =
        .ok ((sortDesc ((dedupByOds
          (searchCandidates db practice_hint address_hint none)).map
          (mkResult practice_hint address_hint (some "")))).take limit) := rfl
    rw [e1, Except.ok.injEq] at h1
    rw [hmk] at h1
    rw [h0] at h1
    rw [← h1]
    exact ⟨hne, le_refl _⟩
  · rcases hd : patientDistrict pc with e | d
    · rw [search] at h1
      simp only [hpc, ne_eq, not_false_iff, if_true, hd, Except.map,
        Bind.bind, Except.bind] at h1
      cases h1
    · have e1 : search db practice_hint address_hint (some pc) limit =
          .ok ((sortDesc ((dedupByOds
            (searchCandidates db practice_hint address_hint (some d))).map
            (mkResult practice_hint address_hint (some pc)))).take limit) := by
        rw [search]
        simp only [hpc, ne_eq, not_false_iff, if_true, hd, Except.map,
          Bind.bind, Except.bind]
        rfl
      rw [e1, Except.ok.injEq] at h1
      set cNone := searchCandidates db practice_hint address_hint none with hcN
      set cSome := searchCandidates db practice_hint address_hint (some d) with hcS
      set resNone := (dedupByOds cNone).map
        (mkResult practice_hint address_hint none) with hrN
      set resSome := (dedupByOds cSome).map
        (mkResult practice_hint address_hint (some pc)) with hrS
      have hresN : resNone ≠ [] := by
        intro hc
        rw [← h0] at hne
        rw [hc] at hne
        simp [sortDesc] at hne
      have hsortN : sortDesc resNone ≠ [] := sortDesc_ne_nil hresN
      rcases hsN : sortDesc resNone with _ | ⟨r0, rrest⟩
      · exact absurd hsN hsortN
      · have hr0mem : r0 ∈ resNone := by
          rw [← mem_sortDesc (l := resNone), hsN]
          exact List.mem_cons_self _ _
        rw [hrN, List.mem_map] at hr0mem
        obtain ⟨c0, hc0, hc0r⟩ := hr0mem
        have hc0db : c0 ∈ db := mem_searchCandidates (dedupByOds_subset hc0)
        have hc0some : c0 ∈ dedupByOds cSome := by
          apply mem_dedupByOds_of_inj hinj
          · intro x hx
            exact mem_searchCandidates hx
          · rw [hcS, searchCandidates_some_eq]
            exact List.mem_append_right _ (dedupByOds_subset hc0)
        have hrsome : mkResult practice_hint address_hint (some pc) c0 ∈ resSome := by
          rw [hrS, List.mem_map]
          exact ⟨c0, hc0some, rfl⟩
        have hscore : r0.score ≤
            (mkResult practice_hint address_hint (some pc) c0).score := by
          rw [← hc0r]
          exact scoreOf_none_le_some practice_hint address_hint pc c0
        have hup : (mkResult practice_hint address_hint (some pc) c0).score ≤
            headScore (sortDesc resSome) :=
          le_headScore_sortDesc hrsome
        have hrsome_ne : resSome ≠ [] := by
          intro hc
          rw [hc] at hrsome
          cases hrsome
        have hsome_ne : sortDesc resSome ≠ [] := sortDesc_ne_nil hrsome_ne
        constructor
        · rw [← h1]
          rcases hsS : sortDesc resSome with _ | ⟨w, ws⟩
          · exact absurd hsS hsome_ne
          · rcases limit with _ | n
            · omega
            · simp
        · rw [← h0, ← h1, headScore_take hlim, headScore_take hlim, hsN]
          calc headScore (r0 :: rrest) = r0.score := rfl
            _ ≤ (mkResult practice_hint address_hint (some pc) c0).score := hscore
            _ ≤ headScore (sortDesc resSome) := hup


/-- Witness for C8: a one-row registry queried with practice hint "AAAA";
adding the postcode hint "AB1 2CD" (whose district matches the row) keeps
the result list non-empty and does not decrease the winning score. -/
theorem search_postcode_hint_monotone_witness :
    [mkResult (some "AAAA") none (some "AB1 2CD") c8row] ≠ [] ∧
    headScore [mkResult (some "AAAA") none none c8row] ≤
      headScore [mkResult (some "AAAA") none (some "AB1 2CD") c8row] :=
  search_postcode_hint_monotone [c8row] (some "AAAA") none "AB1 2CD" 10
    (by decide) (by norm_num)
    [mkResult (some "AAAA") none none c8row]
    [mkResult (some "AAAA") none (some "AB1 2CD") c8row]
    rfl rfl (by simp)


end AddressExtractor
